import Mathlib

/-!
# CAF streaming core: fused downstream manager and test multiplexer

A shallow embedding of

* `libcaf_core/caf/fused_downstream_manager.hpp` (the router that fans one stream out over a
  fixed tuple of nested downstream managers), and
* `libcaf_io/src/test_multiplexer.cpp` (the deterministic reactor: `read_data`, the queue of
  resumables, acceptors, provided handles and the assign operations),

followed by the properties established for them.
-/

namespace caf

/-! ## Data model of the fused downstream manager -/

/-- Slot identifier `stream_slot`; it is only compared, never used arithmetically. -/
abbrev stream_slot := Nat

/-- Modelled from the spec: the `error` argument of `remove_path` and `abort`; the header
`caf/sec.hpp` is absent, the router itself only names `sec::invalid_stream_state`. -/
inductive error where
  | invalid_stream_state
  | code (n : Nat)
deriving DecidableEq, Repr

/-- Modelled from the spec: `outbound_path` (header absent), one destination of a stream. The
router reads only `slots.sender`; `ident` stands for the remaining state of the object. -/
structure outbound_path where
  sender : stream_slot
  ident : Nat
deriving DecidableEq, Repr

/-- Pointer to an outbound path (`path_ptr`); `none` is `nullptr`. -/
abbrev path_ptr := Option outbound_path

/-- Modelled from the spec: `detail::unordered_flat_map` keyed by slots (header absent), a finite
mapping with at most one entry per key. `find` is `lookup`, `erase` removes the entry of a key,
`clear` gives `∅`; no operation modelled here observes the order of the entries. -/
abbrev unordered_flat_map (V : Type) := AList (fun _ : stream_slot => V)

namespace unordered_flat_map

/-- Insertion `emplace(k, v)`: adds the entry when the key is absent and reports `true`, otherwise
leaves the map as it is and reports `false`. -/
def emplace {V : Type} (k : stream_slot) (v : V) (m : unordered_flat_map V) :
    unordered_flat_map V × Bool :=
  if k ∈ m then (m, false) else (m.insert k v, true)

/-- Number of entries, `size()`. -/
def size {V : Type} (m : unordered_flat_map V) : Nat :=
  m.entries.length

end unordered_flat_map

/-- State held for each slot: the path and the nested manager owning it. The owner pointer is the
position of the nested manager in the tuple `nested_`. -/
structure non_owning_ptr (n : Nat) where
  ptr : path_ptr
  owner : Fin n
deriving DecidableEq

/-- Maps slots to path and nested managers. -/
abbrev map_type (n : Nat) := unordered_flat_map (non_owning_ptr n)

/-- Maps slots to paths that have no manager assigned yet. The stored `unique_path_ptr` is
non-null (`CAF_ASSERT(ptr != nullptr)` in `insert_path`), hence a path and not an option. -/
abbrev unassigned_map_type := unordered_flat_map outbound_path

/-- Modelled from the spec: the capability contract of the nested managers (base class
`downstream_manager`, header absent). `W` is the joint state of the `n` nested managers, every
operation names the nested manager it is called on. -/
structure downstream_manager (n : Nat) (W : Type) where
  insert_path : Fin n → outbound_path → W → Bool × W
  remove_path : Fin n → stream_slot → error → Bool → W → Bool × W
  path : Fin n → stream_slot → W → path_ptr
  close : Fin n → W → W
  abort : Fin n → error → W → W
  clear_paths : Fin n → W → W

/-- A downstream manager that delegates to `n` nested managers. -/
structure fused_downstream_manager (n : Nat) (W : Type) where
  nested_ : W
  paths_ : map_type n
  unassigned_paths_ : unassigned_map_type

namespace fused_downstream_manager

variable {n : Nat} {W : Type}

/-- The array `ptrs_` as filled by `detail::init_ptr_array<0, n>`: entry `I` points to
`std::get<I>(nested_)`. -/
def ptrs_ (n : Nat) : List (Fin n) :=
  List.finRange n

/-- A freshly constructed router over nested managers in state `w`. -/
def empty (w : W) : fused_downstream_manager n W :=
  { nested_ := w, paths_ := ∅, unassigned_paths_ := ∅ }

/-- Member `assign<U>(slot)`; `U` selects the nested manager `get<U>()`. The scope guard
`cleanup` erases the unassigned entry on every exit taken after the lookup succeeded. -/
def assign (dm : downstream_manager n W) (U : Fin n) (slot : stream_slot)
    (x : fused_downstream_manager n W) : fused_downstream_manager n W :=
  match x.unassigned_paths_.lookup slot with
  | none => x
  | some p =>
    let cleanup := x.unassigned_paths_.erase slot
    let r := dm.insert_path U p x.nested_
    if r.1 = false then
      { x with nested_ := r.2, unassigned_paths_ := cleanup }
    else
      let er := unordered_flat_map.emplace slot (non_owning_ptr.mk (some p) U) x.paths_
      if er.2 = false then
        { x with nested_ := (dm.remove_path U slot error.invalid_stream_state false r.2).2,
                 unassigned_paths_ := cleanup }
      else
        { nested_ := r.2, paths_ := er.1, unassigned_paths_ := cleanup }

/-- Member `num_paths()`. -/
def num_paths (x : fused_downstream_manager n W) : Nat :=
  unordered_flat_map.size x.paths_

/-- Member `remove_path(slot, reason, silent)`. -/
def remove_path (dm : downstream_manager n W) (slot : stream_slot) (reason : error)
    (silent : Bool) (x : fused_downstream_manager n W) : Bool × fused_downstream_manager n W :=
  match x.paths_.lookup slot with
  | none => (false, x)
  | some i =>
    let r := dm.remove_path i.owner slot reason silent x.nested_
    (r.1, { x with nested_ := r.2, paths_ := x.paths_.erase slot })

/-- Member `path(slot)`. -/
def path (slot : stream_slot) (x : fused_downstream_manager n W) : path_ptr :=
  match x.paths_.lookup slot with
  | none => none
  | some i => i.ptr

/-- Member `close()`. -/
def close (dm : downstream_manager n W) (x : fused_downstream_manager n W) :
    fused_downstream_manager n W :=
  { x with nested_ := (ptrs_ n).foldl (fun w ptr => dm.close ptr w) x.nested_, paths_ := ∅ }

/-- Member `abort(reason)`. -/
def abort (dm : downstream_manager n W) (reason : error) (x : fused_downstream_manager n W) :
    fused_downstream_manager n W :=
  { x with nested_ := (ptrs_ n).foldl (fun w ptr => dm.abort ptr reason w) x.nested_,
           paths_ := ∅ }

/-- Member `clear_paths()`. -/
def clear_paths (dm : downstream_manager n W) (x : fused_downstream_manager n W) :
    fused_downstream_manager n W :=
  { x with nested_ := (ptrs_ n).foldl (fun w ptr => dm.clear_paths ptr w) x.nested_,
           paths_ := ∅ }

/-- Member `insert_path(ptr)` (the registration of a path): the slot is `ptr->slots.sender`. -/
def insert_path (ptr : outbound_path) (x : fused_downstream_manager n W) :
    Bool × fused_downstream_manager n W :=
  let r := unordered_flat_map.emplace ptr.sender ptr x.unassigned_paths_
  (r.2, { x with unassigned_paths_ := r.1 })

/-- One call on the router. -/
inductive call (n : Nat) where
  | insert_path (ptr : outbound_path)
  | assign (U : Fin n) (slot : stream_slot)
  | remove_path (slot : stream_slot) (reason : error) (silent : Bool)
  | close
  | abort (reason : error)
  | clear_paths

/-- State of the router after one call. -/
def step (dm : downstream_manager n W) (x : fused_downstream_manager n W) :
    call n → fused_downstream_manager n W
  | .insert_path ptr => (insert_path ptr x).2
  | .assign U slot => assign dm U slot x
  | .remove_path slot reason silent => (remove_path dm slot reason silent x).2
  | .close => close dm x
  | .abort reason => abort dm reason x
  | .clear_paths => clear_paths dm x

/-- State of the router after a sequence of calls, first call first. -/
def run (dm : downstream_manager n W) (x : fused_downstream_manager n W) :
    List (call n) → fused_downstream_manager n W
  | [] => x
  | c :: cs => run dm (step dm x c) cs

/-- Calls of the kinds `insert_path`, `assign` and `remove_path`. -/
def call.is_path_call : call n → Bool
  | .insert_path _ => true
  | .assign _ _ => true
  | .remove_path _ _ _ => true
  | _ => false

/-- The call, if it is an `insert_path`, carries a slot that is not a key of `paths_`. -/
def fresh_slot (x : fused_downstream_manager n W) : call n → Bool
  | .insert_path ptr => decide (ptr.sender ∉ x.paths_)
  | _ => true

/-- Every `insert_path` of the sequence carries a slot that is, when the call is made, not a key
of `paths_`. -/
def fresh_slots (dm : downstream_manager n W) (x : fused_downstream_manager n W) :
    List (call n) → Bool
  | [] => true
  | c :: cs => fresh_slot x c && fresh_slots dm (step dm x c) cs

/-- No slot is a key of both `paths_` and `unassigned_paths_`. -/
def disjoint_maps (x : fused_downstream_manager n W) : Prop :=
  ∀ slot : stream_slot, ¬ (slot ∈ x.paths_ ∧ slot ∈ x.unassigned_paths_)

end fused_downstream_manager

/-- Modelled from the spec: state of one nested manager seen as a slot-to-path map. -/
abbrev path_map := unordered_flat_map outbound_path

/-- Modelled from the spec: nested managers as slot-to-path maps. `insert_path` rejects a path
whose slot the manager already holds, `remove_path` reports whether the slot was held, and
`close`, `abort` and `clear_paths` drop all paths of the manager. -/
def path_manager (n : Nat) : downstream_manager n (Fin n → path_map) where
  insert_path i ptr w :=
    if ptr.sender ∈ w i then (false, w)
    else (true, Function.update w i ((w i).insert ptr.sender ptr))
  remove_path i slot _ _ w :=
    if slot ∈ w i then (true, Function.update w i ((w i).erase slot)) else (false, w)
  path i slot w := (w i).lookup slot
  close i w := Function.update w i ∅
  abort i _ w := Function.update w i ∅
  clear_paths i w := Function.update w i ∅

/-! ## Data model of the test multiplexer -/

/-- One byte of a buffer (`char`); its value is never inspected. -/
abbrev byte := Nat

/-- Buffers, `std::vector<char>`. -/
abbrev buffer_type := List byte

/-- Handle of a connection, an opaque numeric identifier. -/
abbrev connection_handle := Int

/-- Reference to a queued resumable (`resumable_ptr`). -/
abbrev resumable_ptr := Nat

/-- Reference to the implementation (`scribe`) installed for a connection. -/
abbrev scribe_ptr := Nat

/-- Modelled from the spec: the three read policies (`receive_policy_flag`, header absent). -/
inductive receive_policy_flag where
  | at_least
  | at_most
  | exactly
deriving DecidableEq, Repr

/-- Modelled from the spec: outcome of resuming a resumable, one of done, resume-later,
awaiting-message or anything else (header absent). -/
inductive resume_result where
  | resume_later
  | awaiting_message
  | done
  | other_result
deriving DecidableEq, Repr

/-- Modelled from the spec: kind of a resumable; I/O actors and function objects are run by the
multiplexer itself, every other kind by the scheduler of the actor system (header absent). -/
inductive subtype_t where
  | io_actor
  | function_object
  | other_subtype
deriving DecidableEq, Repr

/-- Modelled from the spec: the per-connection record `scribe_data` (declared in the absent
header): inbound bytes on the wire `xbuf`, read buffer, write buffer, read policy, flags and the
installed implementation. Default values are those of a default-constructed record. -/
structure scribe_data where
  xbuf : buffer_type := []
  rd_buf : buffer_type := []
  wr_buf : buffer_type := []
  recv_conf : receive_policy_flag × Nat := (receive_policy_flag.at_least, 0)
  stopped_reading : Bool := false
  passive_mode : Bool := false
  ptr : Option scribe_ptr := none
  ack_writes : Bool := false

/-- Handle of an acceptor, an opaque numeric identifier. -/
abbrev accept_handle := Int

/-- Handle of an endpoint, an opaque numeric identifier. -/
abbrev endpoint_handle := Int

/-- Handle of a datagram sink, an opaque numeric identifier. -/
abbrev datagram_sink_handle := Int

/-- Handle of a datagram source, an opaque numeric identifier. -/
abbrev datagram_source_handle := Int

/-- Modelled from the spec: the default-constructed handle, bound to nothing (the handle classes
are declared in absent headers); its id is the invalid id. -/
def invalid_handle : Int := -1

/-- Pointer to the broker that asks for an implementation (`abstract_broker*`). -/
abbrev abstract_broker := Nat

/-- Reference to the implementation (`doorman`) installed for an acceptor. -/
abbrev doorman_ptr := Nat

/-- Reference to the implementation (`endpoint`) installed for an endpoint. -/
abbrev endpoint_ptr := Nat

/-- Reference to the implementation (`datagram_sink`) of a datagram sink. -/
abbrev datagram_sink_ptr := Nat

/-- Reference to the implementation (`datagram_source`) of a datagram source. -/
abbrev datagram_source_ptr := Nat

/-- Modelled from the spec: the per-acceptor record `doorman_data` (declared in the absent
header); its members are those the accessors of the multiplexer return. -/
structure doorman_data where
  port : Nat := 0
  stopped_reading : Bool := false
  passive_mode : Bool := false
  ptr : Option doorman_ptr := none

/-- Modelled from the spec: the per-endpoint record `endpoint_data` (declared in the absent
header); its members are those the accessors of the multiplexer return. -/
structure endpoint_data where
  wr_buf : buffer_type := []
  re_buf : buffer_type := []
  re_buf_size : Nat := 0
  local_port : Nat := 0
  remote_port : Nat := 0
  stopped_reading : Bool := false
  passive_mode : Bool := false
  ack_writes : Bool := false
  ptr : Option endpoint_ptr := none

/-- Modelled from the spec: the per-sink record `datagram_sink_data` (declared in the absent
header); its members are those the accessors of the multiplexer return. -/
structure datagram_sink_data where
  wr_buf : buffer_type := []
  port : Nat := 0
  stopped_reading : Bool := false
  passive_mode : Bool := false
  ack_writes : Bool := false
  ptr : Option datagram_sink_ptr := none

/-- Modelled from the spec: the per-source record `datagram_source_data` (declared in the absent
header); its members are those the accessors of the multiplexer return. -/
structure datagram_source_data where
  rd_buf : buffer_type := []
  port : Nat := 0
  buffer_size : Nat := 0
  stopped_reading : Bool := false
  passive_mode : Bool := false
  ptr : Option datagram_source_ptr := none

/-- An implementation object as a broker receives it through one of its five `add_...`
members. -/
inductive adapter where
  | scribe (sptr : scribe_ptr)
  | doorman (dptr : doorman_ptr)
  | endpoint (sptr : endpoint_ptr)
  | datagram_sink (dsptr : datagram_sink_ptr)
  | datagram_source (dsptr : datagram_source_ptr)
deriving DecidableEq, Repr

/-- Modelled from the spec: the table `scribes_` of provided connections, keyed by host and
port, at most one entry per key (declared in the absent header). -/
abbrev pending_scribes_map := AList (fun _ : String × Nat => connection_handle)

/-- Modelled from the spec: the table `doormen_` of provided acceptors, keyed by port, at most
one entry per key (declared in the absent header). -/
abbrev pending_doorman_map := AList (fun _ : Nat => accept_handle)

/-- Modelled from the spec: the multimap `pending_connects_` from acceptors to connections not
yet accepted (declared in the absent header), kept as the list of its entries. Which entry of
a key `find` yields is left open by the container, see `behaviour.pick`. -/
abbrev pending_connects_map := List (accept_handle × connection_handle)

/-- Modelled from the spec: what the brokers hold after their members `add_scribe`,
`add_doorman`, `add_endpoint`, `add_datagram_sink` and `add_datagram_source` (class
`abstract_broker` is absent): each call registers the implementation with that broker; the list
keeps the registrations in the order they were made. -/
abbrev broker_registry := List (abstract_broker × adapter)

/-- The multiplexer. `scribe_data_[hdl]` default-constructs missing records, so the table is a
total function. `scheduler_` lists what was handed to `system().scheduler().enqueue`, and `ext`
is the state of everything outside the multiplexer (brokers, actors). The tables of the other
kinds of handles are total functions as well. `registered` is the registry of the brokers.
`released_` lists the resumables handed to `intrusive_ptr_release`, in call order: each entry
is one strong reference given up. -/
structure test_multiplexer (β : Type) where
  scribe_data_ : connection_handle → scribe_data
  resumables_ : List resumable_ptr
  scheduler_ : List resumable_ptr
  ext : β
  doorman_data_ : accept_handle → doorman_data := fun _ => {}
  endpoint_data_ : endpoint_handle → endpoint_data := fun _ => {}
  datagram_sink_data_ : datagram_sink_handle → datagram_sink_data := fun _ => {}
  datagram_source_data_ : datagram_source_handle → datagram_source_data := fun _ => {}
  scribes_ : pending_scribes_map := ∅
  doormen_ : pending_doorman_map := ∅
  pending_connects_ : pending_connects_map := []
  registered : broker_registry := []
  released_ : List resumable_ptr := []

/-- Code outside the multiplexer that it calls into: the kind and the `resume` of each resumable,
the `consume` of each installed implementation, and `doorman::new_connection(mpx, hdl)` of the
base class of the acceptor implementations. All of them may change the multiplexer. `pick` is
the choice `find(key)` of the multimap `pending_connects_` makes among the entries of `key`:
the container leaves it open, so `pick key map` is an arbitrary number and the entry found is
the one at that position, modulo their count, among the entries of `key`. -/
structure behaviour (β : Type) where
  subtype : resumable_ptr → subtype_t
  resume : resumable_ptr → test_multiplexer β → resume_result × test_multiplexer β
  consume : scribe_ptr → buffer_type → test_multiplexer β → Bool × test_multiplexer β
  new_connection : doorman_ptr → connection_handle → test_multiplexer β →
    Bool × test_multiplexer β := fun _ _ s => (true, s)
  pick : accept_handle → pending_connects_map → Nat := fun _ _ => 0

/-- Ways in which a call fails to return: the step budget of the model is used up (a loop that
has not finished), the caller waits on the condition variable of an empty queue, or the code has
undefined behaviour. -/
inductive fault where
  | out_of_fuel
  | blocked
  | undefined
deriving DecidableEq, Repr

/-- Value of `static_cast<ptrdiff_t>(x)` for a `size_t` x, both 64 bits wide. -/
def to_ptrdiff (x : Nat) : Int :=
  if x % 2 ^ 64 < 2 ^ 63 then ((x % 2 ^ 64 : Nat) : Int) else ((x % 2 ^ 64 : Nat) : Int) - 2 ^ 64

namespace test_multiplexer

variable {β : Type}

/-- Burst size of `flush_runnables`. -/
def max_runnable_count : Nat := 8

/-- Accessor `passive_mode(hdl)`, read. -/
def passive_mode (s : test_multiplexer β) (hdl : connection_handle) : Bool :=
  (s.scribe_data_ hdl).passive_mode

/-- Update of the record `scribe_data_[hdl]`. -/
def modify_scribe (hdl : connection_handle) (f : scribe_data → scribe_data)
    (s : test_multiplexer β) : test_multiplexer β :=
  { s with scribe_data_ := Function.update s.scribe_data_ hdl (f (s.scribe_data_ hdl)) }

/-- Member `exec_later(ptr)`. -/
def exec_later (env : behaviour β) (ptr : resumable_ptr) (s : test_multiplexer β) :
    test_multiplexer β :=
  match env.subtype ptr with
  | .io_actor => { s with resumables_ := s.resumables_ ++ [ptr] }
  | .function_object => { s with resumables_ := s.resumables_ ++ [ptr] }
  | _ => { s with scheduler_ := s.scheduler_ ++ [ptr] }

/-- The call `intrusive_ptr_release(ptr)`: one strong reference to `ptr` is given up. -/
def intrusive_ptr_release (ptr : resumable_ptr) (s : test_multiplexer β) : test_multiplexer β :=
  { s with released_ := s.released_ ++ [ptr] }

/-- Member `exec(ptr)`: resumes `ptr` once and then acts on the outcome. -/
def exec (env : behaviour β) (ptr : resumable_ptr) (s : test_multiplexer β) :
    test_multiplexer β :=
  let r := env.resume ptr s
  match r.1 with
  | .resume_later => exec_later env ptr r.2
  | .done => intrusive_ptr_release ptr r.2
  | .awaiting_message => intrusive_ptr_release ptr r.2
  | _ => r.2

/-- Member `exec_runnable()`: with an empty queue the caller waits for another thread. -/
def exec_runnable (env : behaviour β) (s : test_multiplexer β) :
    Except fault (test_multiplexer β) :=
  match s.resumables_ with
  | [] => .error .blocked
  | ptr :: rest => .ok (exec env ptr { s with resumables_ := rest })

/-- Member `try_exec_runnable()`. -/
def try_exec_runnable (env : behaviour β) (s : test_multiplexer β) :
    Bool × test_multiplexer β :=
  match s.resumables_ with
  | [] => (false, s)
  | ptr :: rest => (true, exec env ptr { s with resumables_ := rest })

/-- Member `flush_runnables()`: each round of the do-while loop moves up to
`max_runnable_count` resumables out of the queue and then resumes them in order; the loop ends
after a round that found the queue empty. -/
def flush_runnables (env : behaviour β) :
    Nat → test_multiplexer β → Except fault (test_multiplexer β)
  | 0, _ => .error .out_of_fuel
  | fuel + 1, s =>
    let runnables := s.resumables_.take max_runnable_count
    let s1 := { s with resumables_ := s.resumables_.drop max_runnable_count }
    let s2 := runnables.foldl (fun st ptr => exec env ptr st) s1
    if runnables.isEmpty then .ok s2 else flush_runnables env fuel s2

/-- The loop `while (!sd.ptr) exec_runnable();` of `read_data`. -/
def await_impl (env : behaviour β) (hdl : connection_handle) :
    Nat → test_multiplexer β → Except fault (test_multiplexer β)
  | 0, _ => .error .out_of_fuel
  | fuel + 1, s =>
    match (s.scribe_data_ hdl).ptr with
    | some _ => .ok s
    | none =>
      match exec_runnable env s with
      | .error e => .error e
      | .ok s1 => await_impl env hdl fuel s1

/-- The statement `if (!sd.ptr->consume(this, sd.rd_buf.data(), sd.rd_buf.size()))
passive_mode(hdl) = true;` shared by the three policies. Returns what the consumer answered. -/
def consume_rd_buf (env : behaviour β) (hdl : connection_handle) (s : test_multiplexer β) :
    Except fault (Bool × test_multiplexer β) :=
  match (s.scribe_data_ hdl).ptr with
  | none => .error .undefined
  | some impl =>
    let r := env.consume impl (s.scribe_data_ hdl).rd_buf s
    if r.1 = false then
      .ok (false, modify_scribe hdl (fun sd => { sd with passive_mode := true }) r.2)
    else .ok (true, r.2)

/-- The loop of `read_data` for `receive_policy_flag::exactly`. The second component lists the
chunks handed to the consumer, in order, each with the answer of the consumer. The cast of
`recv_conf.second` to `ptrdiff_t` is exact here: the loop guard bounds it by the size of `xbuf`. -/
def read_exactly (env : behaviour β) (hdl : connection_handle) :
    Nat → test_multiplexer β → Except fault (test_multiplexer β × List (buffer_type × Bool))
  | 0, _ => .error .out_of_fuel
  | fuel + 1, s =>
    let sd := s.scribe_data_ hdl
    if sd.xbuf.length ≥ sd.recv_conf.2 then
      let s1 := modify_scribe hdl (fun sd =>
        { sd with rd_buf := sd.xbuf.take sd.recv_conf.2, xbuf := sd.xbuf.drop sd.recv_conf.2 }) s
      match consume_rd_buf env hdl s1 with
      | .error e => .error e
      | .ok (ok, s2) =>
        match read_exactly env hdl fuel s2 with
        | .error e => .error e
        | .ok (s3, log) => .ok (s3, ((s1.scribe_data_ hdl).rd_buf, ok) :: log)
    else .ok (s, [])

/-- The branch of `read_data` for `receive_policy_flag::at_least`. -/
def read_at_least (env : behaviour β) (hdl : connection_handle) (s : test_multiplexer β) :
    Except fault (test_multiplexer β × List (buffer_type × Bool)) :=
  let sd := s.scribe_data_ hdl
  if sd.xbuf.length ≥ sd.recv_conf.2 then
    let s1 := modify_scribe hdl (fun sd => { sd with rd_buf := sd.xbuf, xbuf := [] }) s
    match consume_rd_buf env hdl s1 with
    | .error e => .error e
    | .ok (ok, s2) => .ok (s2, [((s1.scribe_data_ hdl).rd_buf, ok)])
  else .ok (s, [])

/-- The loop of `read_data` for `receive_policy_flag::at_most`; `max_bytes` is computed once,
before the loop. With `max_bytes < xbuf_size` the chunk ends at `first + max_bytes`, which is
undefined for a negative `max_bytes`. -/
def read_at_most (env : behaviour β) (hdl : connection_handle) (max_bytes : Int) :
    Nat → test_multiplexer β → Except fault (test_multiplexer β × List (buffer_type × Bool))
  | 0, _ => .error .out_of_fuel
  | fuel + 1, s =>
    let sd := s.scribe_data_ hdl
    if sd.xbuf ≠ [] then
      let xbuf_size : Int := sd.xbuf.length
      if max_bytes < xbuf_size ∧ max_bytes < 0 then .error .undefined
      else
        let k := if max_bytes < xbuf_size then max_bytes.toNat else sd.xbuf.length
        let s1 := modify_scribe hdl (fun sd =>
          { sd with rd_buf := sd.xbuf.take k, xbuf := sd.xbuf.drop k }) s
        match consume_rd_buf env hdl s1 with
        | .error e => .error e
        | .ok (ok, s2) =>
          match read_at_most env hdl max_bytes fuel s2 with
          | .error e => .error e
          | .ok (s3, log) => .ok (s3, ((s1.scribe_data_ hdl).rd_buf, ok) :: log)
    else .ok (s, [])

/-- Member `read_data(hdl)`. The fuel bounds the number of rounds of each of its loops. The
result pairs the final state with the chunks handed to the consumer by this call, in order, each
with the answer of the consumer. -/
def read_data (env : behaviour β) (fuel : Nat) (hdl : connection_handle)
    (s : test_multiplexer β) :
    Except fault (test_multiplexer β × List (buffer_type × Bool)) :=
  if passive_mode s hdl then .ok (s, [])
  else
    match flush_runnables env fuel s with
    | .error e => .error e
    | .ok s1 =>
      match await_impl env hdl fuel s1 with
      | .error e => .error e
      | .ok s2 =>
        match (s2.scribe_data_ hdl).recv_conf.1 with
        | .exactly => read_exactly env hdl fuel s2
        | .at_least => read_at_least env hdl s2
        | .at_most => read_at_most env hdl (to_ptrdiff (s2.scribe_data_ hdl).recv_conf.2) fuel s2

/-- Member `virtual_send(hdl, buf)`. -/
def virtual_send (env : behaviour β) (fuel : Nat) (hdl : connection_handle) (buf : buffer_type)
    (s : test_multiplexer β) :
    Except fault (test_multiplexer β × List (buffer_type × Bool)) :=
  read_data env fuel hdl (modify_scribe hdl (fun sd => { sd with xbuf := sd.xbuf ++ buf }) s)

/-- The consumer of every implementation leaves the inbound buffer `xbuf` of connection `hdl`
as it is. -/
def consumer_keeps_xbuf (env : behaviour β) (hdl : connection_handle) : Prop :=
  ∀ (impl : scribe_ptr) (buf : buffer_type) (s : test_multiplexer β),
    ((env.consume impl buf s).2.scribe_data_ hdl).xbuf = (s.scribe_data_ hdl).xbuf

/-- The consumer of every implementation leaves the read buffer `rd_buf` of connection `hdl`
as it is. -/
def consumer_keeps_rd_buf (env : behaviour β) (hdl : connection_handle) : Prop :=
  ∀ (impl : scribe_ptr) (buf : buffer_type) (s : test_multiplexer β),
    ((env.consume impl buf s).2.scribe_data_ hdl).rd_buf = (s.scribe_data_ hdl).rd_buf

/-- The consumer of every implementation leaves alone what the loops of `read_data` read of
connection `hdl`: the inbound buffer, the read policy and the installed implementation. It may
change everything else, the read buffer, the write buffer and the flags of the connection
included. -/
def consumer_keeps_input (env : behaviour β) (hdl : connection_handle) : Prop :=
  ∀ (impl : scribe_ptr) (buf : buffer_type) (s : test_multiplexer β),
    ((env.consume impl buf s).2.scribe_data_ hdl).xbuf = (s.scribe_data_ hdl).xbuf ∧
      ((env.consume impl buf s).2.scribe_data_ hdl).recv_conf = (s.scribe_data_ hdl).recv_conf ∧
      ((env.consume impl buf s).2.scribe_data_ hdl).ptr = (s.scribe_data_ hdl).ptr

/-- The consumers keep a record of what they receive: `obs` reads, from the state outside the
multiplexer, the list of the chunks the consumers were called with so far, and every call of
`consume` puts the chunk it was given at the end of that list. -/
def consumer_records (env : behaviour β) (obs : β → List buffer_type) : Prop :=
  ∀ (impl : scribe_ptr) (buf : buffer_type) (s : test_multiplexer β),
    obs (env.consume impl buf s).2.ext = obs s.ext ++ [buf]

/-- The consumer of every implementation accepts every chunk. -/
def consumer_accepts (env : behaviour β) : Prop :=
  ∀ (impl : scribe_ptr) (buf : buffer_type) (s : test_multiplexer β),
    (env.consume impl buf s).1 = true

end test_multiplexer

namespace fused_downstream_manager

variable {n : Nat}

/-- Invariant of the router over map-like nested managers: unassigned paths are filed under
their own slot, and every entry of `paths_` is non-null and held by its owner under that slot. -/
def owned_entries (x : fused_downstream_manager n (Fin n → path_map)) : Prop :=
  (∀ (slot : stream_slot) (p : outbound_path),
      x.unassigned_paths_.lookup slot = some p → p.sender = slot) ∧
    (∀ (slot : stream_slot) (i : non_owning_ptr n), x.paths_.lookup slot = some i →
      ∃ p : outbound_path, i.ptr = some p ∧ (x.nested_ i.owner).lookup slot = some p)

end fused_downstream_manager

namespace test_multiplexer

/-- A behaviour whose consumers accept every chunk and leave the multiplexer alone; every
resumable is an I/O actor that is done after one resume. -/
def accepting : behaviour Unit where
  subtype := fun _ => subtype_t.io_actor
  resume := fun _ s => (resume_result.done, s)
  consume := fun _ _ s => (true, s)

/-- A behaviour whose consumers reject every chunk and leave the multiplexer alone; every
resumable is an I/O actor that is done after one resume. -/
def rejecting : behaviour Unit where
  subtype := fun _ => subtype_t.io_actor
  resume := fun _ s => (resume_result.done, s)
  consume := fun _ _ s => (false, s)

/-- A multiplexer with an empty queue in which every connection is non-passive, has
implementation `0` installed, read policy `(pol, N)` and inbound bytes `buf`. -/
def connection (pol : receive_policy_flag) (N : Nat) (buf : buffer_type) :
    test_multiplexer Unit where
  scribe_data_ := fun _ => { xbuf := buf, recv_conf := (pol, N), ptr := some 0 }
  resumables_ := []
  scheduler_ := []
  ext := ()

/-- A behaviour whose consumers write every chunk they are called with at the end of the log
`ext`, answer `answer` and leave the multiplexer alone otherwise; every resumable is an I/O
actor that is done after one resume. -/
def recording (answer : Bool) : behaviour (List buffer_type) where
  subtype := fun _ => subtype_t.io_actor
  resume := fun _ s => (resume_result.done, s)
  consume := fun _ buf s => (answer, { s with ext := s.ext ++ [buf] })

/-- The multiplexer `connection pol N buf` with an empty log of received chunks as the state
outside the multiplexer. -/
def recorded (pol : receive_policy_flag) (N : Nat) (buf : buffer_type) :
    test_multiplexer (List buffer_type) where
  scribe_data_ := fun _ => { xbuf := buf, recv_conf := (pol, N), ptr := some 0 }
  resumables_ := []
  scheduler_ := []
  ext := []

/-- A behaviour whose consumers accept every chunk and take it out of the read buffer of
connection `0`, which is empty afterwards; they touch nothing else, the inbound buffer
included. -/
def taker : behaviour Unit where
  subtype := fun _ => subtype_t.io_actor
  resume := fun _ s => (resume_result.done, s)
  consume := fun _ _ s => (true, modify_scribe 0 (fun sd => { sd with rd_buf := [] }) s)

/-- A behaviour in which every resumable is an I/O actor that, when resumed, puts the byte `9`
on the wire of connection `0` and is done; the consumers accept every chunk and leave the
multiplexer alone. -/
def feeding : behaviour Unit where
  subtype := fun _ => subtype_t.io_actor
  resume := fun _ s =>
    (resume_result.done, modify_scribe 0 (fun sd => { sd with xbuf := sd.xbuf ++ [9] }) s)
  consume := fun _ _ s => (true, s)

/-- A behaviour whose consumers log every chunk they are called with in `ext`, accept it and
write it back into the write buffer of connection `0`, as a replying broker does. -/
def echo : behaviour (List buffer_type) where
  subtype := fun _ => subtype_t.io_actor
  resume := fun _ s => (resume_result.done, s)
  consume := fun _ buf s =>
    (true, modify_scribe 0 (fun sd => { sd with wr_buf := sd.wr_buf ++ buf })
      { s with ext := s.ext ++ [buf] })

end test_multiplexer

/-- Modelled from the spec: the size queries of the capability contract of the nested managers
(`capacity()`, `buffered()` and `buffered(slot)` of base class `downstream_manager`, header
absent). They are `const` and return a `size_t`. -/
structure downstream_metrics (n : Nat) (W : Type) where
  capacity : Fin n → W → Nat
  buffered : Fin n → W → Nat
  buffered_slot : Fin n → stream_slot → W → Nat

namespace fused_downstream_manager

variable {n : Nat} {W : Type}

/-- Largest `size_t`, `std::numeric_limits<size_t>::max()`, for a `size_t` of 64 bits. -/
def size_t_max : Nat := 2 ^ 64 - 1

/-- Member `capacity()`: the minimum of all available capacities. -/
def capacity (q : downstream_metrics n W) (x : fused_downstream_manager n W) : Nat :=
  (ptrs_ n).foldl (fun result ptr => min result (q.capacity ptr x.nested_)) size_t_max

/-- Member `buffered()`: the maximum of all available buffer sizes. -/
def buffered (q : downstream_metrics n W) (x : fused_downstream_manager n W) : Nat :=
  (ptrs_ n).foldl (fun result ptr => max result (q.buffered ptr x.nested_)) 0

/-- Member `buffered(slot)`: every nested manager is asked, the answers are added up with
`result += ...` on a `size_t`, which wraps at `2^64`. -/
def buffered_slot (q : downstream_metrics n W) (slot : stream_slot)
    (x : fused_downstream_manager n W) : Nat :=
  (ptrs_ n).foldl (fun result ptr => (result + q.buffered_slot ptr slot x.nested_) % 2 ^ 64) 0

end fused_downstream_manager

namespace test_multiplexer

variable {β : Type}

/-- Member `new_tcp_scribe(host, port_hint)`: a provided connection is handed out once; without
one the default-constructed handle is returned. The result is an `expected`, always a value. -/
def new_tcp_scribe (host : String) (port_hint : Nat) (s : test_multiplexer β) :
    Except error connection_handle × test_multiplexer β :=
  match s.scribes_.lookup (host, port_hint) with
  | some i => (.ok i, { s with scribes_ := s.scribes_.erase (host, port_hint) })
  | none => (.ok invalid_handle, s)

/-- Member `assign_tcp_scribe(ptr, hdl)`; `sptr` is the implementation object that
`make_counted<impl>(ptr, hdl, this)` creates. -/
def assign_tcp_scribe (ptr : abstract_broker) (sptr : scribe_ptr) (hdl : connection_handle)
    (s : test_multiplexer β) : Except error Unit × test_multiplexer β :=
  let s1 := { s with
    scribe_data_ := Function.update s.scribe_data_ hdl { (s.scribe_data_ hdl) with ptr := some sptr } }
  (.ok (), { s1 with registered := s1.registered ++ [(ptr, adapter.scribe sptr)] })

/-- Member `new_tcp_doorman(desired_port, ...)`. -/
def new_tcp_doorman (desired_port : Nat) (s : test_multiplexer β) :
    Except error (accept_handle × Nat) × test_multiplexer β :=
  match s.doormen_.lookup desired_port with
  | some i => (.ok (i, desired_port), { s with doormen_ := s.doormen_.erase desired_port })
  | none => (.ok (invalid_handle, desired_port), s)

/-- Member `assign_tcp_doorman(ptr, hdl)`; `dptr` is the implementation object that
`make_counted<impl>(ptr, hdl, this)` creates. -/
def assign_tcp_doorman (ptr : abstract_broker) (dptr : doorman_ptr) (hdl : accept_handle)
    (s : test_multiplexer β) : Except error Unit × test_multiplexer β :=
  let s1 := { s with
    doorman_data_ := Function.update s.doorman_data_ hdl { (s.doorman_data_ hdl) with ptr := some dptr } }
  (.ok (), { s1 with registered := s1.registered ++ [(ptr, adapter.doorman dptr)] })

/-- Member `assign_endpoint(ptr, hdl)`; `sptr` is the implementation object that
`make_counted<impl>(ptr, hdl, this)` creates. -/
def assign_endpoint (ptr : abstract_broker) (sptr : endpoint_ptr) (hdl : endpoint_handle)
    (s : test_multiplexer β) : Except error Unit × test_multiplexer β :=
  let s1 := { s with
    endpoint_data_ := Function.update s.endpoint_data_ hdl { (s.endpoint_data_ hdl) with ptr := some sptr } }
  (.ok (), { s1 with registered := s1.registered ++ [(ptr, adapter.endpoint sptr)] })

/-- Member `assign_datagram_sink(ptr, hdl)`; `dsptr` is the implementation object that
`make_counted<impl>(ptr, hdl, this)` creates. The handle is used for that object only. -/
def assign_datagram_sink (ptr : abstract_broker) (dsptr : datagram_sink_ptr)
    (_hdl : datagram_sink_handle) (s : test_multiplexer β) :
    Except error Unit × test_multiplexer β :=
  (.ok (), { s with registered := s.registered ++ [(ptr, adapter.datagram_sink dsptr)] })

/-- Member `assign_datagram_source(ptr, hdl)`; `dsptr` is the implementation object that
`make_counted<impl>(ptr, hdl, this)` creates. The handle is used for that object only. -/
def assign_datagram_source (ptr : abstract_broker) (dsptr : datagram_source_ptr)
    (_hdl : datagram_source_handle) (s : test_multiplexer β) :
    Except error Unit × test_multiplexer β :=
  (.ok (), { s with registered := s.registered ++ [(ptr, adapter.datagram_source dsptr)] })

/-- Member `provide_scribe(host, desired_port, hdl)`; `emplace` keeps an entry already stored
under the key. -/
def provide_scribe (host : String) (desired_port : Nat) (hdl : connection_handle)
    (s : test_multiplexer β) : test_multiplexer β :=
  { s with
    scribes_ :=
      if (host, desired_port) ∈ s.scribes_ then s.scribes_
      else s.scribes_.insert (host, desired_port) hdl }

/-- Member `provide_acceptor(desired_port, hdl)`. -/
def provide_acceptor (desired_port : Nat) (hdl : accept_handle) (s : test_multiplexer β) :
    test_multiplexer β :=
  { s with
    doormen_ :=
      if desired_port ∈ s.doormen_ then s.doormen_ else s.doormen_.insert desired_port hdl,
    doorman_data_ :=
      Function.update s.doorman_data_ hdl { (s.doorman_data_ hdl) with port := desired_port } }

/-- Member `add_pending_connect(src, hdl)`. -/
def add_pending_connect (src : accept_handle) (hdl : connection_handle)
    (s : test_multiplexer β) : test_multiplexer β :=
  { s with pending_connects_ := s.pending_connects_ ++ [(src, hdl)] }

/-- Member `has_pending_scribe(x, y)`. -/
def has_pending_scribe (x : String) (y : Nat) (s : test_multiplexer β) : Bool :=
  decide ((x, y) ∈ s.scribes_)

/-- Member `new_connection()` of the implementation that `assign_tcp_doorman(ptr, hdl)`
installs: `hdl` is the handle that implementation was made for, `dptr` the implementation.
`mm.find(hdl())` yields no entry when the acceptor has none and otherwise the one of its entries
that `env.pick` chooses. The entry found is erased after the call into the base class. -/
def new_connection (env : behaviour β) (dptr : doorman_ptr) (hdl : accept_handle)
    (s : test_multiplexer β) : Bool × test_multiplexer β :=
  let found := s.pending_connects_.filter (fun e => e.1 == hdl)
  match found[env.pick hdl s.pending_connects_ % found.length]? with
  | none => (true, s)
  | some i =>
    let r := env.new_connection dptr i.2 s
    (r.1, { r.2 with pending_connects_ := r.2.pending_connects_.erase i })

/-- Member `accept_connection(hdl)`. -/
def accept_connection (env : behaviour β) (hdl : accept_handle) (s : test_multiplexer β) :
    Bool × test_multiplexer β :=
  if (s.doorman_data_ hdl).passive_mode then (false, s)
  else
    match (s.doorman_data_ hdl).ptr with
    | none => (false, s)
    | some dptr =>
      let r := new_connection env dptr hdl s
      if r.1 = false then
        (true, { r.2 with
          doorman_data_ := Function.update r.2.doorman_data_ hdl
            { (r.2.doorman_data_ hdl) with passive_mode := true } })
      else (true, r.2)

/-- Every resume is terminal (`done`), records the resumed item at the end of the log `ext`,
and touches the queue only by appending the item `spawn` names, if any. -/
def logs_and_spawns (env : behaviour (List resumable_ptr))
    (spawn : resumable_ptr → Option resumable_ptr) : Prop :=
  ∀ (ptr : resumable_ptr) (s : test_multiplexer (List resumable_ptr)),
    (env.resume ptr s).1 = resume_result.done ∧
      (env.resume ptr s).2.resumables_ = s.resumables_ ++ (spawn ptr).toList ∧
      (env.resume ptr s).2.ext = s.ext ++ [ptr]

/-- A behaviour of I/O actors that are done after one resume, in which each resume is logged in
`ext` and puts the item named by `spawn`, if any, on the queue through `exec_later`. -/
def spawning (spawn : resumable_ptr → Option resumable_ptr) :
    behaviour (List resumable_ptr) where
  subtype := fun _ => subtype_t.io_actor
  resume := fun ptr s =>
    (resume_result.done,
      match spawn ptr with
      | none => { s with ext := s.ext ++ [ptr] }
      | some child =>
        exec_later
          { subtype := fun _ => subtype_t.io_actor, resume := fun _ t => (resume_result.done, t),
            consume := fun _ _ t => (true, t) }
          child { s with ext := s.ext ++ [ptr] })
  consume := fun _ _ s => (true, s)

/-- A multiplexer with queue `q`, an empty log and default records otherwise. -/
def queued (q : List resumable_ptr) : test_multiplexer (List resumable_ptr) where
  scribe_data_ := fun _ => {}
  resumables_ := q
  scheduler_ := []
  ext := []

/-- A multiplexer in which every acceptor is non-passive and has implementation `0` installed,
with pending-connect map `pending`. -/
def listening (pending : pending_connects_map) : test_multiplexer Unit where
  scribe_data_ := fun _ => {}
  resumables_ := []
  scheduler_ := []
  ext := ()
  doorman_data_ := fun _ => { ptr := some 0 }
  pending_connects_ := pending

/-- A behaviour like `accepting` in which the base class refuses every new connection. -/
def refusing : behaviour Unit where
  subtype := fun _ => subtype_t.io_actor
  resume := fun _ s => (resume_result.done, s)
  consume := fun _ _ s => (true, s)
  new_connection := fun _ _ s => (false, s)

/-- A behaviour like `accepting` in which every resume has outcome `r` and changes nothing. -/
def resuming (r : resume_result) : behaviour Unit where
  subtype := fun _ => subtype_t.io_actor
  resume := fun _ s => (r, s)
  consume := fun _ _ s => (true, s)

end test_multiplexer

/-- Three nested managers that report capacities 7, 3, 9, buffer sizes 1, 4, 2, and for slot 5
the sizes 0, 42, 0. -/
def sample_metrics : downstream_metrics 3 Unit where
  capacity := fun i _ => [7, 3, 9].getD i.val 0
  buffered := fun i _ => [1, 4, 2].getD i.val 0
  buffered_slot := fun i slot _ => if i = 1 ∧ slot = 5 then 42 else 0

namespace test_multiplexer

variable {β : Type}

/-- Member `add_tcp_scribe(ptr, host, desired_port)`; `sptr` is the implementation object that
`assign_tcp_scribe` creates. -/
def add_tcp_scribe (ptr : abstract_broker) (sptr : scribe_ptr) (host : String)
    (desired_port : Nat) (s : test_multiplexer β) :
    Except error connection_handle × test_multiplexer β :=
  let hdl := new_tcp_scribe host desired_port s
  match hdl.1 with
  | .error e => (.error e, hdl.2)
  | .ok h => (.ok h, (assign_tcp_scribe ptr sptr h hdl.2).2)

/-- The naive way to empty the queue, in the words of the claim compared with
`flush_runnables`: call `try_exec_runnable` (take the front element, resume it) until it
returns `false`. -/
def drain_naive (env : behaviour β) : Nat → test_multiplexer β → Except fault (test_multiplexer β)
  | 0, _ => .error .out_of_fuel
  | fuel + 1, s =>
    let r := try_exec_runnable env s
    if r.1 = true then drain_naive env fuel r.2 else .ok r.2

/-- Every resume deals with the queue through `exec_later` only: it does not look at the queue
and changes it at most by appending at its end, so that elements put in front of the queue
beforehand are still in front of it afterwards and change nothing else. -/
def queue_oblivious (env : behaviour β) : Prop :=
  ∀ (ptr : resumable_ptr) (s : test_multiplexer β) (front : List resumable_ptr),
    env.resume ptr { s with resumables_ := front ++ s.resumables_ }
      = ((env.resume ptr s).1,
        { (env.resume ptr s).2 with resumables_ := front ++ (env.resume ptr s).2.resumables_ })

end test_multiplexer

/-! ## Properties of the fused downstream manager -/

namespace fused_downstream_manager

variable {n : Nat} {W : Type}

/-- Keys after `emplace`: the new key and the old keys. -/
theorem mem_emplace {V : Type} (k : stream_slot) (v : V) (m : unordered_flat_map V)
    (a : stream_slot) : a ∈ (unordered_flat_map.emplace k v m).1 ↔ a = k ∨ a ∈ m := by
  unfold unordered_flat_map.emplace
  by_cases h : k ∈ m
  · simp only [h, if_true]
    constructor
    · intro ha; exact Or.inr ha
    · rintro (rfl | ha)
      · exact h
      · exact ha
  · simp only [h, if_false]
    exact AList.mem_insert m

/-- One call keeps `paths_` and `unassigned_paths_` disjoint when an `insert_path` carries a
slot that is not a key of `paths_`. -/
theorem disjoint_maps_step (dm : downstream_manager n W) (x : fused_downstream_manager n W)
    (c : call n) (hx : disjoint_maps x)
    (hc : fresh_slot x c = true) : disjoint_maps (step dm x c) := by
  intro slot
  cases c with
  | insert_path ptr =>
    simp only [step, insert_path, mem_emplace]
    rintro ⟨h1, rfl | h2⟩
    · simp only [fresh_slot, decide_eq_true_eq] at hc
      exact hc h1
    · exact hx slot ⟨h1, h2⟩
  | assign U s =>
    simp only [step, assign]
    cases hl : x.unassigned_paths_.lookup s with
    | none => exact hx slot
    | some p =>
      simp only []
      split_ifs with h1 h2
      · simp only [AList.mem_erase]
        rintro ⟨h3, _, h4⟩
        exact hx slot ⟨h3, h4⟩
      · simp only [AList.mem_erase]
        rintro ⟨h3, _, h4⟩
        exact hx slot ⟨h3, h4⟩
      · simp only [AList.mem_erase, mem_emplace]
        rintro ⟨h3 | h3, h4, h5⟩
        · exact h4 h3
        · exact hx slot ⟨h3, h5⟩
  | remove_path s reason silent =>
    simp only [step, remove_path]
    cases hl : x.paths_.lookup s with
    | none => exact hx slot
    | some i =>
      simp only [AList.mem_erase]
      rintro ⟨⟨_, h3⟩, h4⟩
      exact hx slot ⟨h3, h4⟩
  | close =>
    simp only [step, close]
    rintro ⟨h3, _⟩
    exact AList.not_mem_empty slot h3
  | abort reason =>
    simp only [step, abort]
    rintro ⟨h3, _⟩
    exact AList.not_mem_empty slot h3
  | clear_paths =>
    simp only [step, clear_paths]
    rintro ⟨h3, _⟩
    exact AList.not_mem_empty slot h3

/-- Disjointness is kept along a sequence of calls with fresh slots. -/
theorem disjoint_maps_run (dm : downstream_manager n W) (calls : List (call n)) :
    ∀ x : fused_downstream_manager n W, disjoint_maps x → fresh_slots dm x calls = true →
      disjoint_maps (run dm x calls) := by
  induction calls with
  | nil => intro x hx _; exact hx
  | cons c cs ih =>
    intro x hx hf
    simp only [fresh_slots, Bool.and_eq_true] at hf
    exact ih (step dm x c) (disjoint_maps_step dm x c hx hf.1) hf.2

/-- Claim C1, what the code does instead: `insert_path` looks at `unassigned_paths_` only, so
registering slot 5, assigning it and registering slot 5 again leaves slot 5 a key of both
`paths_` and `unassigned_paths_`. -/
theorem insert_path_breaks_disjointness :
    (∀ c ∈ [call.insert_path ⟨5, 0⟩, call.assign (0 : Fin 1) 5, call.insert_path ⟨5, 1⟩],
        call.is_path_call c = true) ∧
      ¬ disjoint_maps (run (path_manager 1) (empty (fun _ => ∅))
        [call.insert_path ⟨5, 0⟩, call.assign (0 : Fin 1) 5, call.insert_path ⟨5, 1⟩]) := by
  refine ⟨by decide, fun h => h 5 ?_⟩
  decide

/-- Claim C1, amended: starting from an empty router, after every finite sequence of calls in
which each `insert_path` carries a slot that is at that moment not a key of `paths_`, no slot is
at the same time a key of `paths_` and of `unassigned_paths_`. The nested managers are arbitrary;
the sequence may hold `close`, `abort` and `clear_paths` besides `insert_path`, `assign` and
`remove_path`. -/
theorem disjoint_maps_of_fresh_slots (dm : downstream_manager n W) (w : W)
    (calls : List (call n)) (hfresh : fresh_slots dm (empty w) calls = true) :
    disjoint_maps (run dm (empty w) calls) :=
  disjoint_maps_run dm calls (empty w)
    (fun slot h => AList.not_mem_empty slot h.1) hfresh

/-- Claim C1, amended, at a concrete sequence: slot 5 is registered, assigned, removed and
registered again. -/
theorem disjoint_maps_of_fresh_slots_witness :
    fresh_slots (path_manager 2) (empty (fun _ => ∅))
        [call.insert_path ⟨5, 0⟩, call.assign (0 : Fin 2) 5, call.remove_path 5 (error.code 1) true,
          call.insert_path ⟨5, 1⟩] = true ∧
      disjoint_maps (run (path_manager 2) (empty (fun _ => ∅))
        [call.insert_path ⟨5, 0⟩, call.assign (0 : Fin 2) 5, call.remove_path 5 (error.code 1) true,
          call.insert_path ⟨5, 1⟩]) :=
  ⟨by decide, disjoint_maps_of_fresh_slots (path_manager 2) (fun _ => ∅) _ (by decide)⟩

/-- Claim C7: for a slot that is a key of `paths_` with owner `i.owner`, `remove_path` returns
what the one call `remove_path(slot, reason, silent)` on the owner returns and leaves the nested
managers in the state that call produced; the entry of the router is gone whatever the owner
answered, and `unassigned_paths_` and the other entries of `paths_` are as before. -/
theorem remove_path_known_slot (dm : downstream_manager n W) (x : fused_downstream_manager n W)
    (slot : stream_slot) (reason : error) (silent : Bool) (i : non_owning_ptr n)
    (hfind : x.paths_.lookup slot = some i) :
    (remove_path dm slot reason silent x).1
        = (dm.remove_path i.owner slot reason silent x.nested_).1 ∧
      (remove_path dm slot reason silent x).2.nested_
        = (dm.remove_path i.owner slot reason silent x.nested_).2 ∧
      slot ∉ (remove_path dm slot reason silent x).2.paths_ ∧
      path slot (remove_path dm slot reason silent x).2 = none ∧
      (∀ other : stream_slot, other ≠ slot →
        (remove_path dm slot reason silent x).2.paths_.lookup other = x.paths_.lookup other) ∧
      (remove_path dm slot reason silent x).2.unassigned_paths_ = x.unassigned_paths_ := by
  simp only [remove_path, hfind, path, AList.lookup_erase, AList.mem_erase]
  refine ⟨trivial, trivial, ?_, trivial, ?_, trivial⟩
  · rintro ⟨h, _⟩; exact h rfl
  · intro other hne; exact AList.lookup_erase_ne hne

/-- Claim C8: for a slot that is not a key of `paths_`, `remove_path` returns `false` and leaves
the whole router, nested managers included, as it was. -/
theorem remove_path_unknown_slot (dm : downstream_manager n W)
    (x : fused_downstream_manager n W) (slot : stream_slot) (reason : error) (silent : Bool)
    (hfind : slot ∉ x.paths_) :
    remove_path dm slot reason silent x = (false, x) := by
  simp only [remove_path, AList.lookup_eq_none.mpr hfind]

/-- The call `emplace` on an absent key inserts. -/
theorem emplace_of_not_mem {V : Type} (k : stream_slot) (v : V) (m : unordered_flat_map V)
    (h : k ∉ m) : unordered_flat_map.emplace k v m = (m.insert k v, true) := by
  simp only [unordered_flat_map.emplace, h, if_false]

/-- The call `emplace` on a present key changes nothing. -/
theorem emplace_of_mem {V : Type} (k : stream_slot) (v : V) (m : unordered_flat_map V)
    (h : k ∈ m) : unordered_flat_map.emplace k v m = (m, false) := by
  simp only [unordered_flat_map.emplace, h, if_true]

/-- A map-like nested manager that accepts a path holds it under the slot of the path. -/
theorem path_manager_owns_accepted (n : Nat) (i : Fin n) (q : outbound_path)
    (w : Fin n → path_map) (h : ((path_manager n).insert_path i q w).1 = true) :
    (path_manager n).path i q.sender ((path_manager n).insert_path i q w).2 = some q := by
  simp only [path_manager] at h ⊢
  by_cases hm : q.sender ∈ w i
  · simp [hm] at h
  · simp only [hm, if_false, Function.update_same]
    exact AList.lookup_insert (w i)

/-- A map-like nested manager that rejects a path is left as it was. -/
theorem path_manager_rejects_unchanged (n : Nat) (i : Fin n) (q : outbound_path)
    (w : Fin n → path_map) (h : ((path_manager n).insert_path i q w).1 = false) :
    ((path_manager n).insert_path i q w).2 = w := by
  simp only [path_manager] at h ⊢
  by_cases hm : q.sender ∈ w i
  · simp only [hm, if_true]
  · simp [hm] at h

/-- Claim C9: successful `assign<M>(slot)`. If `slot` is registered in `unassigned_paths_` with
path `p`, is not a key of `paths_`, and `M` accepts `insert_path(p)`, then afterwards `slot` is
no key of `unassigned_paths_`, `paths_` maps it to `(p, M)`, `path(slot)` returns `p`, the
nested managers are in the state the accepted insertion produced, in which `M` holds `p` under
`slot`, and `num_paths()` has grown by one. Nested managers are any that hold an accepted path
under its slot (`howns`). -/
theorem assign_accepted (dm : downstream_manager n W) (x : fused_downstream_manager n W)
    (M : Fin n) (slot : stream_slot) (p : outbound_path)
    (hreg : x.unassigned_paths_.lookup slot = some p) (hslot : p.sender = slot)
    (hfree : slot ∉ x.paths_)
    (hacc : (dm.insert_path M p x.nested_).1 = true)
    (howns : ∀ (i : Fin n) (q : outbound_path) (w : W), (dm.insert_path i q w).1 = true →
      dm.path i q.sender (dm.insert_path i q w).2 = some q) :
    slot ∉ (assign dm M slot x).unassigned_paths_ ∧
      (assign dm M slot x).paths_.lookup slot = some ⟨some p, M⟩ ∧
      path slot (assign dm M slot x) = some p ∧
      (assign dm M slot x).nested_ = (dm.insert_path M p x.nested_).2 ∧
      dm.path M slot (assign dm M slot x).nested_ = some p ∧
      num_paths (assign dm M slot x) = num_paths x + 1 := by
  have hx : assign dm M slot x =
      { nested_ := (dm.insert_path M p x.nested_).2,
        paths_ := x.paths_.insert slot ⟨some p, M⟩,
        unassigned_paths_ := x.unassigned_paths_.erase slot } := by
    simp only [assign, hreg, hacc, emplace_of_not_mem _ _ _ hfree]
    simp
  rw [hx]
  refine ⟨?_, ?_, ?_, rfl, ?_, ?_⟩
  · simp only [AList.mem_erase]; rintro ⟨h, _⟩; exact h rfl
  · exact AList.lookup_insert x.paths_
  · simp only [path, AList.lookup_insert]
  · have := howns M p x.nested_ hacc
    rw [hslot] at this
    exact this
  · simp only [num_paths, unordered_flat_map.size, AList.insert_entries_of_neg hfree,
      List.length_cons]

/-- Claim C10: after `assign<M>(slot)`, whatever branch is taken, `slot` is no key of
`unassigned_paths_`; and when `slot` was registered with path `p` and `M` rejects
`insert_path(p)`, keeping its state as every rejecting nested manager does, then `paths_` and
the nested managers are unchanged, so that no one holds the dropped path. -/
theorem assign_clears_unassigned (dm : downstream_manager n W)
    (x : fused_downstream_manager n W) (M : Fin n) (slot : stream_slot) :
    slot ∉ (assign dm M slot x).unassigned_paths_ ∧
      (∀ p : outbound_path, x.unassigned_paths_.lookup slot = some p →
        (dm.insert_path M p x.nested_).1 = false →
        (∀ (i : Fin n) (q : outbound_path) (w : W), (dm.insert_path i q w).1 = false →
          (dm.insert_path i q w).2 = w) →
        (assign dm M slot x).paths_ = x.paths_ ∧ (assign dm M slot x).nested_ = x.nested_ ∧
          path slot (assign dm M slot x) = path slot x) := by
  constructor
  · simp only [assign]
    cases hl : x.unassigned_paths_.lookup slot with
    | none => exact AList.lookup_eq_none.mp hl
    | some p =>
      simp only []
      split_ifs <;> simp only [AList.mem_erase] <;> rintro ⟨h, _⟩ <;> exact h rfl
  · intro p hreg hrej hdrop
    have hx : assign dm M slot x =
        { x with nested_ := (dm.insert_path M p x.nested_).2,
                 unassigned_paths_ := x.unassigned_paths_.erase slot } := by
      simp only [assign, hreg, hrej, if_true]
    rw [hx]
    exact ⟨rfl, hdrop M p x.nested_ hrej, rfl⟩

/-- An entry found after `emplace` is the new one or was there before. -/
theorem lookup_emplace {V : Type} (k : stream_slot) (v : V) (m : unordered_flat_map V)
    (a : stream_slot) (b : V) (h : (unordered_flat_map.emplace k v m).1.lookup a = some b) :
    (a = k ∧ b = v) ∨ m.lookup a = some b := by
  by_cases hk : k ∈ m
  · rw [emplace_of_mem k v m hk] at h
    exact Or.inr h
  · rw [emplace_of_not_mem k v m hk] at h
    by_cases hak : a = k
    · subst hak
      rw [AList.lookup_insert] at h
      exact Or.inl ⟨rfl, (Option.some.inj h).symm⟩
    · rw [AList.lookup_insert_ne hak] at h
      exact Or.inr h

/-- An entry found after `erase` was there before, under another key. -/
theorem lookup_erase_some {V : Type} (k : stream_slot) (m : unordered_flat_map V)
    (a : stream_slot) (b : V) (h : (m.erase k).lookup a = some b) :
    a ≠ k ∧ m.lookup a = some b := by
  by_cases hak : a = k
  · subst hak
    rw [AList.lookup_erase] at h
    cases h
  · rw [AList.lookup_erase_ne hak] at h
    exact ⟨hak, h⟩

/-- Every call on a router over map-like nested managers keeps `owned_entries`. -/
theorem owned_entries_step (x : fused_downstream_manager n (Fin n → path_map)) (c : call n)
    (hx : owned_entries x) : owned_entries (step (path_manager n) x c) := by
  obtain ⟨hu, hp⟩ := hx
  cases c with
  | insert_path ptr =>
    refine ⟨?_, hp⟩
    intro slot p h
    simp only [step, insert_path] at h
    rcases lookup_emplace _ _ _ _ _ h with ⟨rfl, rfl⟩ | h'
    · rfl
    · exact hu slot p h'
  | assign U s =>
    simp only [step, assign]
    cases hl : x.unassigned_paths_.lookup s with
    | none => exact ⟨hu, hp⟩
    | some p =>
      have hps : p.sender = s := hu s p hl
      have hu' : ∀ (slot : stream_slot) (q : outbound_path),
          (x.unassigned_paths_.erase s).lookup slot = some q → q.sender = slot :=
        fun slot q h => hu slot q (lookup_erase_some _ _ _ _ h).2
      by_cases hm : s ∈ x.nested_ U
      · have hr : (path_manager n).insert_path U p x.nested_ = (false, x.nested_) := by
          simp only [path_manager, hps, hm, if_true]
        simp only [hr, if_true]
        exact ⟨hu', hp⟩
      · have hr : (path_manager n).insert_path U p x.nested_
            = (true, Function.update x.nested_ U ((x.nested_ U).insert s p)) := by
          simp only [path_manager, hps, hm, if_false]
        simp only [hr, Bool.true_eq_false, if_false]
        by_cases hk : s ∈ x.paths_
        · simp only [emplace_of_mem _ _ _ hk, if_true]
          refine ⟨hu', ?_⟩
          intro slot i h
          obtain ⟨q, hq1, hq2⟩ := hp slot i h
          refine ⟨q, hq1, ?_⟩
          have hin : s ∈ (Function.update x.nested_ U ((x.nested_ U).insert s p)) U := by
            rw [Function.update_same]
            exact (AList.mem_insert _).mpr (Or.inl rfl)
          simp only [path_manager, hin, if_true]
          by_cases ho : i.owner = U
          · rw [ho, Function.update_same, Function.update_same]
            have hne : slot ≠ s := by
              rintro rfl
              rw [ho] at hq2
              exact hm (AList.lookup_isSome.mp (by rw [hq2]; rfl))
            rw [AList.lookup_erase_ne hne, AList.lookup_insert_ne hne]
            rw [ho] at hq2
            exact hq2
          · rw [Function.update_noteq ho, Function.update_noteq ho]
            exact hq2
        · simp only [emplace_of_not_mem _ _ _ hk, Bool.true_eq_false, if_false]
          refine ⟨hu', ?_⟩
          intro slot i h
          by_cases hs : slot = s
          · subst hs
            rw [AList.lookup_insert] at h
            cases h
            exact ⟨p, rfl, by simp only [Function.update_same, AList.lookup_insert]⟩
          · rw [AList.lookup_insert_ne hs] at h
            obtain ⟨q, hq1, hq2⟩ := hp slot i h
            refine ⟨q, hq1, ?_⟩
            show AList.lookup slot
              (Function.update x.nested_ U (AList.insert s p (x.nested_ U)) i.owner) = some q
            by_cases ho : i.owner = U
            · rw [ho, Function.update_same, AList.lookup_insert_ne hs]
              rw [ho] at hq2
              exact hq2
            · rw [Function.update_noteq ho]
              exact hq2
  | remove_path s reason silent =>
    simp only [step, remove_path]
    cases hl : x.paths_.lookup s with
    | none => exact ⟨hu, hp⟩
    | some i0 =>
      refine ⟨hu, ?_⟩
      intro slot i h
      obtain ⟨hne, h'⟩ := lookup_erase_some _ _ _ _ h
      obtain ⟨q, hq1, hq2⟩ := hp slot i h'
      refine ⟨q, hq1, ?_⟩
      simp only [path_manager]
      split_ifs with hm
      · show AList.lookup slot
          (Function.update x.nested_ i0.owner (AList.erase s (x.nested_ i0.owner)) i.owner)
            = some q
        by_cases ho : i.owner = i0.owner
        · rw [ho, Function.update_same, AList.lookup_erase_ne hne]
          rw [ho] at hq2
          exact hq2
        · rw [Function.update_noteq ho]
          exact hq2
      · exact hq2
  | close =>
    refine ⟨hu, ?_⟩
    intro slot i h
    simp only [step, close, AList.lookup_empty] at h
    cases h
  | abort reason =>
    refine ⟨hu, ?_⟩
    intro slot i h
    simp only [step, abort, AList.lookup_empty] at h
    cases h
  | clear_paths =>
    refine ⟨hu, ?_⟩
    intro slot i h
    simp only [step, clear_paths, AList.lookup_empty] at h
    cases h

/-- Every sequence of calls keeps `owned_entries`. -/
theorem owned_entries_run (calls : List (call n)) :
    ∀ x : fused_downstream_manager n (Fin n → path_map), owned_entries x →
      owned_entries (run (path_manager n) x calls) := by
  induction calls with
  | nil => intro x hx; exact hx
  | cons c cs ih => intro x hx; exact ih _ (owned_entries_step x c hx)

/-- Claim C6: in every state reached from the empty router by `insert_path`, `assign`,
`remove_path`, `close`, `abort` and `clear_paths` over map-like nested managers, every entry
`slot -> (ptr, owner)` of `paths_` has a non-null `ptr` and the owner holds that very path under
`slot`. -/
theorem paths_entry_owned (w : Fin n → path_map) (calls : List (call n)) (slot : stream_slot)
    (i : non_owning_ptr n)
    (hfind : (run (path_manager n) (empty w) calls).paths_.lookup slot = some i) :
    ∃ p : outbound_path, i.ptr = some p ∧
      (path_manager n).path i.owner slot (run (path_manager n) (empty w) calls).nested_
        = some p := by
  have h0 : owned_entries (empty w : fused_downstream_manager n (Fin n → path_map)) := by
    constructor
    · intro slot p h
      simp only [empty, AList.lookup_empty] at h
      cases h
    · intro slot i h
      simp only [empty, AList.lookup_empty] at h
      cases h
  exact (owned_entries_run calls _ h0).2 slot i hfind

/-- Claim C6 at a concrete sequence of calls with a rejected assignment and a removal. -/
theorem paths_entry_owned_witness :
    (run (path_manager 2) (empty (fun _ => ∅))
        [call.insert_path ⟨5, 0⟩, call.assign (1 : Fin 2) 5, call.insert_path ⟨5, 1⟩,
          call.assign (0 : Fin 2) 5, call.insert_path ⟨7, 2⟩, call.assign (1 : Fin 2) 7,
          call.remove_path 7 (error.code 3) false]).paths_.lookup 5 = some ⟨some ⟨5, 0⟩, 1⟩ ∧
      ∃ p : outbound_path, (non_owning_ptr.mk (some ⟨5, 0⟩) (1 : Fin 2)).ptr = some p ∧
        (path_manager 2).path (non_owning_ptr.mk (some ⟨5, 0⟩) (1 : Fin 2)).owner 5
          (run (path_manager 2) (empty (fun _ => ∅))
            [call.insert_path ⟨5, 0⟩, call.assign (1 : Fin 2) 5, call.insert_path ⟨5, 1⟩,
              call.assign (0 : Fin 2) 5, call.insert_path ⟨7, 2⟩, call.assign (1 : Fin 2) 7,
              call.remove_path 7 (error.code 3) false]).nested_ = some p :=
  ⟨by decide, paths_entry_owned (fun _ => ∅) _ 5 ⟨some ⟨5, 0⟩, 1⟩ (by decide)⟩

/-- Claim C7 at a known slot whose owner does not hold it: the removal reports `false`, what the
owner answered, and the entry of the router is gone all the same. -/
theorem remove_path_known_slot_witness :
    (remove_path (path_manager 1) 5 (error.code 1) false
        { nested_ := fun _ => ∅, paths_ := AList.singleton 5 ⟨some ⟨5, 0⟩, 0⟩,
          unassigned_paths_ := ∅ }).1 = false ∧
      5 ∉ (remove_path (path_manager 1) 5 (error.code 1) false
        { nested_ := fun _ => ∅, paths_ := AList.singleton 5 ⟨some ⟨5, 0⟩, 0⟩,
          unassigned_paths_ := ∅ }).2.paths_ :=
  ⟨(remove_path_known_slot (path_manager 1)
      { nested_ := fun _ => ∅, paths_ := AList.singleton 5 ⟨some ⟨5, 0⟩, 0⟩,
        unassigned_paths_ := ∅ } 5 (error.code 1) false ⟨some ⟨5, 0⟩, 0⟩ (by decide)).1,
    (remove_path_known_slot (path_manager 1)
      { nested_ := fun _ => ∅, paths_ := AList.singleton 5 ⟨some ⟨5, 0⟩, 0⟩,
        unassigned_paths_ := ∅ } 5 (error.code 1) false ⟨some ⟨5, 0⟩, 0⟩ (by decide)).2.2.1⟩

/-- Claim C8 at a slot that is registered in `unassigned_paths_` only. -/
theorem remove_path_unknown_slot_witness :
    5 ∈ (insert_path ⟨5, 0⟩ (empty (fun _ => ∅) :
        fused_downstream_manager 2 (Fin 2 → path_map))).2.unassigned_paths_ ∧
      remove_path (path_manager 2) 5 (error.code 1) true
          (insert_path ⟨5, 0⟩ (empty (fun _ => ∅))).2
        = (false, (insert_path ⟨5, 0⟩ (empty (fun _ => ∅))).2) :=
  ⟨by decide, remove_path_unknown_slot (path_manager 2)
    (insert_path ⟨5, 0⟩ (empty (fun _ => ∅))).2 5 (error.code 1) true (by decide)⟩

/-- Claim C9 at a router with two nested managers after registering a path for slot 5. -/
theorem assign_accepted_witness :
    (assign (path_manager 2) 1 5 (insert_path ⟨5, 0⟩ (empty (fun _ => ∅))).2).paths_.lookup 5
        = some ⟨some ⟨5, 0⟩, 1⟩ ∧
      (path_manager 2).path 1 5
          (assign (path_manager 2) 1 5 (insert_path ⟨5, 0⟩ (empty (fun _ => ∅))).2).nested_
        = some ⟨5, 0⟩ ∧
      num_paths (assign (path_manager 2) 1 5 (insert_path ⟨5, 0⟩ (empty (fun _ => ∅))).2)
        = num_paths (insert_path ⟨5, 0⟩ (empty (fun _ => ∅) :
            fused_downstream_manager 2 (Fin 2 → path_map))).2 + 1 :=
  have h := assign_accepted (path_manager 2) (insert_path ⟨5, 0⟩ (empty (fun _ => ∅))).2 1 5
    ⟨5, 0⟩ (by decide) rfl (by decide) (by decide) (path_manager_owns_accepted 2)
  ⟨h.2.1, h.2.2.2.2.1, h.2.2.2.2.2⟩

/-- Claim C10 at a router whose only nested manager already holds slot 5 when a second path for
slot 5 is assigned to it. -/
theorem assign_clears_unassigned_witness :
    5 ∈ (run (path_manager 1) (empty (fun _ => ∅)) [call.insert_path ⟨5, 0⟩,
        call.assign 0 5, call.insert_path ⟨5, 1⟩]).unassigned_paths_ ∧
      5 ∉ (assign (path_manager 1) 0 5 (run (path_manager 1) (empty (fun _ => ∅))
        [call.insert_path ⟨5, 0⟩, call.assign 0 5,
          call.insert_path ⟨5, 1⟩])).unassigned_paths_ ∧
      (assign (path_manager 1) 0 5 (run (path_manager 1) (empty (fun _ => ∅))
        [call.insert_path ⟨5, 0⟩, call.assign 0 5, call.insert_path ⟨5, 1⟩])).paths_
        = (run (path_manager 1) (empty (fun _ => ∅)) [call.insert_path ⟨5, 0⟩,
            call.assign 0 5, call.insert_path ⟨5, 1⟩]).paths_ :=
  have h := assign_clears_unassigned (path_manager 1)
    (run (path_manager 1) (empty (fun _ => ∅))
      [call.insert_path ⟨5, 0⟩, call.assign 0 5, call.insert_path ⟨5, 1⟩]) 0 5
  ⟨by decide, h.1,
    (h.2 ⟨5, 1⟩ (by decide) (by decide) (path_manager_rejects_unchanged 1)).1⟩

end fused_downstream_manager

/-! ## Properties of the test multiplexer -/

namespace test_multiplexer

variable {β : Type}

/-- Without an installed implementation the hand-over of `rd_buf` dereferences a null
pointer. -/
theorem consume_rd_buf_of_null (env : behaviour β) (hdl : connection_handle)
    (s : test_multiplexer β) (hptr : (s.scribe_data_ hdl).ptr = none) :
    consume_rd_buf env hdl s = .error fault.undefined := by
  simp only [consume_rd_buf, hptr]

/-- Handing `rd_buf` over with an implementation installed: the consumer of that implementation
is called with `rd_buf`, the answer is the one it gives, and the state afterwards is the one it
leaves, except for the passive flag of the connection. -/
theorem consume_rd_buf_some (env : behaviour β) (hdl : connection_handle)
    (s : test_multiplexer β) (impl : scribe_ptr)
    (hptr : (s.scribe_data_ hdl).ptr = some impl) :
    ∃ s2 : test_multiplexer β,
      consume_rd_buf env hdl s
          = .ok ((env.consume impl (s.scribe_data_ hdl).rd_buf s).1, s2) ∧
        s2.ext = (env.consume impl (s.scribe_data_ hdl).rd_buf s).2.ext ∧
        (s2.scribe_data_ hdl).xbuf
          = ((env.consume impl (s.scribe_data_ hdl).rd_buf s).2.scribe_data_ hdl).xbuf ∧
        (s2.scribe_data_ hdl).rd_buf
          = ((env.consume impl (s.scribe_data_ hdl).rd_buf s).2.scribe_data_ hdl).rd_buf ∧
        (s2.scribe_data_ hdl).recv_conf
          = ((env.consume impl (s.scribe_data_ hdl).rd_buf s).2.scribe_data_ hdl).recv_conf ∧
        (s2.scribe_data_ hdl).ptr
          = ((env.consume impl (s.scribe_data_ hdl).rd_buf s).2.scribe_data_ hdl).ptr := by
  cases hok : (env.consume impl (s.scribe_data_ hdl).rd_buf s).1 with
  | false =>
    refine ⟨modify_scribe hdl (fun sd => { sd with passive_mode := true })
      (env.consume impl (s.scribe_data_ hdl).rd_buf s).2, ?_, rfl, ?_, ?_, ?_, ?_⟩
    · simp only [consume_rd_buf, hptr, hok, if_true]
    all_goals simp only [modify_scribe, Function.update_same]
  | true =>
    refine ⟨(env.consume impl (s.scribe_data_ hdl).rd_buf s).2, ?_, rfl, rfl, rfl, rfl, rfl⟩
    simp only [consume_rd_buf, hptr, hok, Bool.true_eq_false, if_false]

/-- One hand-over in `read_data`: the record of the connection is changed by `f`, which sets
`rd_buf` to the next chunk, and `rd_buf` is handed to the consumer. The consumer is called
with that chunk; what is known of the state afterwards depends on what the consumer leaves
alone. -/
theorem hand_over (env : behaviour β) (hdl : connection_handle) (f : scribe_data → scribe_data)
    (s : test_multiplexer β) (impl : scribe_ptr)
    (hptr : (f (s.scribe_data_ hdl)).ptr = some impl) :
    ∃ s2 : test_multiplexer β,
      consume_rd_buf env hdl (modify_scribe hdl f s)
          = .ok ((env.consume impl (f (s.scribe_data_ hdl)).rd_buf (modify_scribe hdl f s)).1,
              s2) ∧
        s2.ext
          = (env.consume impl (f (s.scribe_data_ hdl)).rd_buf (modify_scribe hdl f s)).2.ext ∧
        (∀ obs : β → List buffer_type, consumer_records env obs →
          obs s2.ext = obs s.ext ++ [(f (s.scribe_data_ hdl)).rd_buf]) ∧
        (consumer_keeps_xbuf env hdl →
          (s2.scribe_data_ hdl).xbuf = (f (s.scribe_data_ hdl)).xbuf) ∧
        (consumer_keeps_rd_buf env hdl →
          (s2.scribe_data_ hdl).rd_buf = (f (s.scribe_data_ hdl)).rd_buf) ∧
        (consumer_keeps_input env hdl →
          (s2.scribe_data_ hdl).xbuf = (f (s.scribe_data_ hdl)).xbuf ∧
            (s2.scribe_data_ hdl).recv_conf = (f (s.scribe_data_ hdl)).recv_conf ∧
            (s2.scribe_data_ hdl).ptr = some impl) := by
  have hr1 : (modify_scribe hdl f s).scribe_data_ hdl = f (s.scribe_data_ hdl) := by
    simp only [modify_scribe, Function.update_same]
  obtain ⟨s2, hc, hext, hx, hr, hcf, hp⟩ :=
    consume_rd_buf_some env hdl (modify_scribe hdl f s) impl (by rw [hr1]; exact hptr)
  rw [hr1] at hc hext hx hr hcf hp
  refine ⟨s2, hc, hext, ?_, ?_, ?_, ?_⟩
  · intro obs hobs
    rw [hext, hobs]
    rfl
  · intro hk
    rw [hx, hk, hr1]
  · intro hk
    rw [hr, hk, hr1]
  · intro hk
    obtain ⟨k1, k2, k3⟩ := hk impl (f (s.scribe_data_ hdl)).rd_buf (modify_scribe hdl f s)
    rw [hr1] at k1 k2 k3
    exact ⟨by rw [hx, k1], by rw [hcf, k2], by rw [hp, k3, hptr]⟩

/-- A consumer that leaves alone what the loops read leaves the inbound buffer alone. -/
theorem consumer_keeps_xbuf_of_input (env : behaviour β) (hdl : connection_handle)
    (h : consumer_keeps_input env hdl) : consumer_keeps_xbuf env hdl :=
  fun impl buf s => (h impl buf s).1

/-- The last chunk of a log that starts with `c` and goes on with a log whose last chunk,
if any, is taken relative to `c`. -/
theorem last_chunk_cons (c : buffer_type) (ok : Bool) (log : List (buffer_type × Bool))
    (d : buffer_type) :
    ((log.getLast?).map Prod.fst).getD c = ((((c, ok) :: log).getLast?).map Prod.fst).getD d := by
  cases log with
  | nil => simp only [List.getLast?_nil, Option.map_none', Option.getD_none,
      List.getLast?_singleton, Option.map_some', Option.getD_some]
  | cons e log =>
    cases hl : (e :: log).getLast? with
    | none => simp at hl
    | some z => simp only [List.getLast?_cons_cons, hl, Option.map_some', Option.getD_some]

/-- The loop of the exactly policy returns for `N ≥ 1` when the consumer leaves alone what the
loop reads; its chunks, the answers, the remaining bytes and the record afterwards. -/
theorem read_exactly_total (env : behaviour β) (hdl : connection_handle)
    (hkeep : consumer_keeps_input env hdl) (N : Nat) (hN : 1 ≤ N) (impl : scribe_ptr) :
    ∀ (fuel : Nat) (s : test_multiplexer β), (s.scribe_data_ hdl).ptr = some impl →
      (s.scribe_data_ hdl).recv_conf.2 = N → (s.scribe_data_ hdl).xbuf.length < fuel →
      ∃ (s' : test_multiplexer β) (log : List (buffer_type × Bool)),
        read_exactly env hdl fuel s = .ok (s', log) ∧
        log.length = (s.scribe_data_ hdl).xbuf.length / N ∧
        (∀ i : Nat, i < log.length →
          (log.map Prod.fst)[i]? = some (((s.scribe_data_ hdl).xbuf.drop (i * N)).take N)) ∧
        (∀ e ∈ log, e.1.length = N) ∧
        (s'.scribe_data_ hdl).xbuf = (s.scribe_data_ hdl).xbuf.drop
          ((s.scribe_data_ hdl).xbuf.length - (s.scribe_data_ hdl).xbuf.length % N) ∧
        (∀ e ∈ log, ∃ st : test_multiplexer β, e.2 = (env.consume impl e.1 st).1) ∧
        (s'.scribe_data_ hdl).recv_conf = (s.scribe_data_ hdl).recv_conf ∧
        (s'.scribe_data_ hdl).ptr = some impl := by
  intro fuel
  induction fuel with
  | zero => intro s _ _ h; exact absurd h (Nat.not_lt_zero _)
  | succ fuel ih =>
    intro s hptr hconf hfuel
    by_cases hge : (s.scribe_data_ hdl).xbuf.length ≥ N
    · -- one round of the loop
      obtain ⟨s2, hc, _, _, _, _, hin⟩ := hand_over env hdl (fun sd =>
          { sd with rd_buf := sd.xbuf.take sd.recv_conf.2, xbuf := sd.xbuf.drop sd.recv_conf.2 })
          s impl hptr
      obtain ⟨hx2, hcf2, hp2⟩ := hin hkeep
      simp only [hconf] at hx2 hcf2
      obtain ⟨s1, hs1⟩ : ∃ s1 : test_multiplexer β, s1 = modify_scribe hdl (fun sd =>
          { sd with rd_buf := sd.xbuf.take sd.recv_conf.2, xbuf := sd.xbuf.drop sd.recv_conf.2 })
          s := ⟨_, rfl⟩
      have hr1 : (s1.scribe_data_ hdl).rd_buf = (s.scribe_data_ hdl).xbuf.take N := by
        rw [hs1]; simp only [modify_scribe, Function.update_same, hconf]
      rw [← hs1] at hc
      simp only [hconf] at hc
      have hlen : (s2.scribe_data_ hdl).xbuf.length < fuel := by
        rw [hx2]; simp only [List.length_drop]; omega
      obtain ⟨s', log, hrun, hcount, hith, hsz, hrem, hans, hcf, hp⟩ :=
        ih s2 hp2 (by rw [hcf2]; exact hconf) hlen
      rw [hx2] at hcount hith hrem
      refine ⟨s', (((s.scribe_data_ hdl).xbuf.take N),
        (env.consume impl ((s.scribe_data_ hdl).xbuf.take N) s1).1) :: log, ?_, ?_, ?_, ?_, ?_,
        ?_, ?_, hp⟩
      · rw [read_exactly]
        simp only [hconf, hge, if_true, ← hs1, hc, hrun, hr1]
      · simp only [List.length_cons, hcount, List.length_drop]
        have := Nat.sub_add_cancel hge
        conv_rhs => rw [← this]
        rw [Nat.add_div_right _ (by omega : 0 < N)]
      · intro i hi
        cases i with
        | zero => simp only [List.map_cons, List.getElem?_cons_zero, Nat.zero_mul, List.drop_zero]
        | succ i =>
          simp only [List.length_cons, Nat.add_lt_add_iff_right] at hi
          simp only [List.map_cons, List.getElem?_cons_succ, hith i hi, List.drop_drop]
          have : N + i * N = (i + 1) * N := by ring
          rw [this]
      · intro e he
        rcases List.mem_cons.mp he with rfl | he
        · simp only [List.length_take]
          omega
        · exact hsz e he
      · rw [hrem]
        simp only [List.length_drop, List.drop_drop]
        have hmod : ((s.scribe_data_ hdl).xbuf.length - N) % N
            = (s.scribe_data_ hdl).xbuf.length % N := (Nat.mod_eq_sub_mod hge).symm
        have hle : ((s.scribe_data_ hdl).xbuf.length - N) % N
            ≤ (s.scribe_data_ hdl).xbuf.length - N := Nat.mod_le _ _
        congr 1
        omega
      · intro e he
        rcases List.mem_cons.mp he with rfl | he
        · exact ⟨_, rfl⟩
        · exact hans e he
      · rw [hcf, hcf2]
    · refine ⟨s, [], ?_, ?_, ?_, ?_, ?_, ?_, rfl, hptr⟩
      · rw [read_exactly]
        simp only [hconf, hge, if_false]
      · simp only [List.length_nil]
        exact (Nat.div_eq_of_lt (by omega)).symm
      · intro i hi; exact absurd hi (Nat.not_lt_zero _)
      · intro e he; cases he
      · rw [Nat.mod_eq_of_lt (by omega : (s.scribe_data_ hdl).xbuf.length < N), Nat.sub_self,
          List.drop_zero]
      · intro e he; cases he

/-- The loop of the at-most policy returns for `max_bytes = N ≥ 1` when the consumer leaves
alone what the loop reads; its chunks, the answers and the record afterwards. -/
theorem read_at_most_total (env : behaviour β) (hdl : connection_handle)
    (hkeep : consumer_keeps_input env hdl) (N : Nat) (hN : 1 ≤ N) (impl : scribe_ptr) :
    ∀ (fuel : Nat) (s : test_multiplexer β), (s.scribe_data_ hdl).ptr = some impl →
      (s.scribe_data_ hdl).xbuf.length < fuel →
      ∃ (s' : test_multiplexer β) (log : List (buffer_type × Bool)),
        read_at_most env hdl (N : Int) fuel s = .ok (s', log) ∧
        (log.map Prod.fst).flatten = (s.scribe_data_ hdl).xbuf ∧
        (s'.scribe_data_ hdl).xbuf = [] ∧
        log.length = ((s.scribe_data_ hdl).xbuf.length + N - 1) / N ∧
        (∀ i : Nat, i < log.length →
          (log.map Prod.fst)[i]? = some (((s.scribe_data_ hdl).xbuf.drop (i * N)).take N)) ∧
        (∀ e ∈ log, 1 ≤ e.1.length ∧ e.1.length ≤ N) ∧
        (∀ i : Nat, i + 1 < log.length →
          ((log.map Prod.fst)[i]?).map List.length = some N) ∧
        (∀ e ∈ log, ∃ st : test_multiplexer β, e.2 = (env.consume impl e.1 st).1) ∧
        (s'.scribe_data_ hdl).recv_conf = (s.scribe_data_ hdl).recv_conf ∧
        (s'.scribe_data_ hdl).ptr = some impl := by
  intro fuel
  induction fuel with
  | zero => intro s _ h; exact absurd h (Nat.not_lt_zero _)
  | succ fuel ih =>
    intro s hptr hfuel
    by_cases hne : (s.scribe_data_ hdl).xbuf ≠ []
    · have hpos : 0 < (s.scribe_data_ hdl).xbuf.length := List.length_pos.mpr hne
      have hk : ∀ k : Nat,
          k = (if (N : Int) < ((s.scribe_data_ hdl).xbuf.length : Int) then (N : Int).toNat
            else (s.scribe_data_ hdl).xbuf.length) →
          (s.scribe_data_ hdl).xbuf.take k = (s.scribe_data_ hdl).xbuf.take N ∧
            (s.scribe_data_ hdl).xbuf.drop k = (s.scribe_data_ hdl).xbuf.drop N := by
        intro k hk
        by_cases hlt : N < (s.scribe_data_ hdl).xbuf.length
        · rw [if_pos (by exact_mod_cast hlt), Int.toNat_ofNat] at hk
          rw [hk]; exact ⟨rfl, rfl⟩
        · rw [if_neg (by exact_mod_cast hlt)] at hk
          rw [hk, List.take_length, List.drop_length,
            List.take_of_length_le (Nat.le_of_not_lt hlt),
            List.drop_of_length_le (Nat.le_of_not_lt hlt)]
          exact ⟨rfl, rfl⟩
      obtain ⟨hk1, hk2⟩ := hk _ rfl
      obtain ⟨s2, hc, _, _, _, _, hin⟩ := hand_over env hdl (fun sd =>
          { sd with
            rd_buf := sd.xbuf.take (if (N : Int) < ((s.scribe_data_ hdl).xbuf.length : Int)
              then (N : Int).toNat else (s.scribe_data_ hdl).xbuf.length),
            xbuf := sd.xbuf.drop (if (N : Int) < ((s.scribe_data_ hdl).xbuf.length : Int)
              then (N : Int).toNat else (s.scribe_data_ hdl).xbuf.length) }) s impl hptr
      obtain ⟨hx2, hcf2, hp2⟩ := hin hkeep
      simp only [hk2] at hx2 hcf2
      obtain ⟨s1, hs1⟩ : ∃ s1 : test_multiplexer β, s1 = modify_scribe hdl (fun sd =>
          { sd with
            rd_buf := sd.xbuf.take (if (N : Int) < ((s.scribe_data_ hdl).xbuf.length : Int)
              then (N : Int).toNat else (s.scribe_data_ hdl).xbuf.length),
            xbuf := sd.xbuf.drop (if (N : Int) < ((s.scribe_data_ hdl).xbuf.length : Int)
              then (N : Int).toNat else (s.scribe_data_ hdl).xbuf.length) }) s := ⟨_, rfl⟩
      have hr1 : (s1.scribe_data_ hdl).rd_buf = (s.scribe_data_ hdl).xbuf.take N := by
        rw [hs1]; simp only [modify_scribe, Function.update_same, hk1]
      rw [← hs1] at hc
      simp only [hk1] at hc
      have hlen : (s2.scribe_data_ hdl).xbuf.length < fuel := by
        rw [hx2]; simp only [List.length_drop]; omega
      obtain ⟨s', log, hrun, hcat, hemp, hcount, hith, hsz, hfull, hans, hcf, hp⟩ :=
        ih s2 hp2 hlen
      rw [hx2] at hcat hcount hith
      refine ⟨s', (((s.scribe_data_ hdl).xbuf.take N),
        (env.consume impl ((s.scribe_data_ hdl).xbuf.take N) s1).1) :: log, ?_, ?_, hemp, ?_, ?_,
        ?_, ?_, ?_, ?_, hp⟩
      · rw [read_at_most]
        have hnn : ¬ ((N : Int) < ((s.scribe_data_ hdl).xbuf.length : Int) ∧ (N : Int) < 0) :=
          fun h => absurd h.2 (by omega)
        simp only [hne, ne_eq, not_false_eq_true, if_true, hnn, if_false, ← hs1, hc, hrun, hr1]
      · simp only [List.map_cons, List.flatten_cons, hcat, List.take_append_drop]
      · simp only [List.length_cons, hcount, List.length_drop]
        by_cases hlt : N < (s.scribe_data_ hdl).xbuf.length
        · have e1 : (s.scribe_data_ hdl).xbuf.length + N - 1
              = ((s.scribe_data_ hdl).xbuf.length - N + N - 1) + N := by omega
          rw [e1, Nat.add_div_right _ (by omega : 0 < N)]
        · have e1 : (s.scribe_data_ hdl).xbuf.length - N + N - 1 = N - 1 := by omega
          have e2 : (s.scribe_data_ hdl).xbuf.length + N - 1
              = ((s.scribe_data_ hdl).xbuf.length - 1) + N := by omega
          rw [e1, e2, Nat.add_div_right _ (by omega : 0 < N),
            Nat.div_eq_of_lt (by omega : N - 1 < N),
            Nat.div_eq_of_lt (by omega : (s.scribe_data_ hdl).xbuf.length - 1 < N)]
      · intro i hi
        cases i with
        | zero => simp only [List.map_cons, List.getElem?_cons_zero, Nat.zero_mul, List.drop_zero]
        | succ i =>
          simp only [List.length_cons, Nat.add_lt_add_iff_right] at hi
          simp only [List.map_cons, List.getElem?_cons_succ, hith i hi, List.drop_drop]
          have : N + i * N = (i + 1) * N := by ring
          rw [this]
      · intro e he
        rcases List.mem_cons.mp he with rfl | he
        · simp only [List.length_take]
          omega
        · exact hsz e he
      · intro i hi
        cases i with
        | zero =>
          simp only [List.length_cons, Nat.zero_add, Nat.lt_add_left_iff_pos] at hi
          have hnz : (s.scribe_data_ hdl).xbuf.length - N ≠ 0 := by
            intro h0
            rw [hcount, List.length_drop, h0, Nat.zero_add,
              Nat.div_eq_of_lt (by omega : N - 1 < N)] at hi
            exact absurd hi (Nat.lt_irrefl 0)
          simp only [List.map_cons, List.getElem?_cons_zero, Option.map_some', List.length_take]
          congr 1
          omega
        | succ i =>
          simp only [List.length_cons, Nat.add_lt_add_iff_right] at hi
          simp only [List.map_cons, List.getElem?_cons_succ]
          exact hfull i hi
      · intro e he
        rcases List.mem_cons.mp he with rfl | he
        · exact ⟨_, rfl⟩
        · exact hans e he
      · rw [hcf, hcf2]
    · have he : (s.scribe_data_ hdl).xbuf = [] := by
        by_contra h; exact hne h
      refine ⟨s, [], ?_, ?_, he, ?_, ?_, ?_, ?_, ?_, rfl, hptr⟩
      · rw [read_at_most]
        simp only [hne, if_false]
      · simp only [List.map_nil, List.flatten_nil, he]
      · simp only [List.length_nil, he, Nat.zero_add]
        exact (Nat.div_eq_of_lt (by omega)).symm
      · intro i hi; exact absurd hi (Nat.not_lt_zero _)
      · intro e he; cases he
      · intro i hi; exact absurd hi (Nat.not_lt_zero _)
      · intro e he; cases he

/-- The cast to `ptrdiff_t` is exact below `2^63`. -/
theorem to_ptrdiff_of_lt (N : Nat) (h : N < 2 ^ 63) : to_ptrdiff N = (N : Int) := by
  have h1 : N % 2 ^ 64 = N := Nat.mod_eq_of_lt (by omega)
  simp only [to_ptrdiff, h1, h, if_true]

/-- On a non-passive connection whose implementation is installed once the queued resumables
have run, `read_data` is the chunk delivery of the configured policy. -/
theorem read_data_of_ready (env : behaviour β) (fuel : Nat) (hdl : connection_handle)
    (s s1 : test_multiplexer β) (impl : scribe_ptr)
    (hpass : passive_mode s hdl = false)
    (hflush : flush_runnables env fuel s = .ok s1)
    (hptr : (s1.scribe_data_ hdl).ptr = some impl) :
    read_data env fuel hdl s =
      match (s1.scribe_data_ hdl).recv_conf.1 with
      | .exactly => read_exactly env hdl fuel s1
      | .at_least => read_at_least env hdl s1
      | .at_most => read_at_most env hdl (to_ptrdiff (s1.scribe_data_ hdl).recv_conf.2) fuel s1 := by
  have hawait : await_impl env hdl fuel s1 = .ok s1 := by
    cases fuel with
    | zero => simp only [flush_runnables] at hflush; cases hflush
    | succ k => simp only [await_impl, hptr]
  simp only [read_data, hpass, Bool.false_eq_true, if_false, hflush, hawait]

/-- Whenever the loop of the exactly policy returns: every chunk of its log was handed to the
consumer, in order (read off the record the consumers keep); for a consumer that leaves `xbuf`
alone the chunks followed by what is left in `xbuf` are the bytes `xbuf` held; and for a
consumer that leaves `rd_buf` alone `rd_buf` holds the last chunk. -/
theorem read_exactly_returned (env : behaviour β) (hdl : connection_handle) :
    ∀ (fuel : Nat) (s s' : test_multiplexer β) (log : List (buffer_type × Bool)),
      read_exactly env hdl fuel s = .ok (s', log) →
      (∀ obs : β → List buffer_type, consumer_records env obs →
          obs s'.ext = obs s.ext ++ log.map Prod.fst) ∧
        (consumer_keeps_xbuf env hdl →
          (log.map Prod.fst).flatten ++ (s'.scribe_data_ hdl).xbuf = (s.scribe_data_ hdl).xbuf) ∧
        (consumer_keeps_rd_buf env hdl →
          (s'.scribe_data_ hdl).rd_buf
            = ((log.getLast?).map Prod.fst).getD (s.scribe_data_ hdl).rd_buf) := by
  intro fuel
  induction fuel with
  | zero =>
    intro s s' log h
    simp only [read_exactly] at h
    cases h
  | succ fuel ih =>
    intro s s' log h
    rw [read_exactly] at h
    by_cases hge : (s.scribe_data_ hdl).xbuf.length ≥ (s.scribe_data_ hdl).recv_conf.2
    · obtain ⟨s1, hs1⟩ : ∃ s1 : test_multiplexer β, s1 = modify_scribe hdl (fun sd =>
          { sd with rd_buf := sd.xbuf.take sd.recv_conf.2, xbuf := sd.xbuf.drop sd.recv_conf.2 })
          s := ⟨_, rfl⟩
      have hr1 : s1.scribe_data_ hdl = { s.scribe_data_ hdl with
          rd_buf := (s.scribe_data_ hdl).xbuf.take (s.scribe_data_ hdl).recv_conf.2,
          xbuf := (s.scribe_data_ hdl).xbuf.drop (s.scribe_data_ hdl).recv_conf.2 } := by
        rw [hs1]; simp only [modify_scribe, Function.update_same]
      simp only [hge, if_true, ← hs1] at h
      cases hp : (s.scribe_data_ hdl).ptr with
      | none =>
        rw [consume_rd_buf_of_null env hdl s1 (by rw [hr1]; exact hp)] at h
        cases h
      | some impl =>
        obtain ⟨s2, hc, _, hobs2, hx2, hrd2, _⟩ := hand_over env hdl (fun sd =>
          { sd with rd_buf := sd.xbuf.take sd.recv_conf.2, xbuf := sd.xbuf.drop sd.recv_conf.2 })
          s impl hp
        rw [← hs1] at hc
        simp only [] at hc hobs2 hx2 hrd2
        simp only [hc, hr1] at h
        cases hrec : read_exactly env hdl fuel s2 with
        | error e =>
          rw [hrec] at h
          cases h
        | ok r =>
          obtain ⟨s3, log'⟩ := r
          rw [hrec] at h
          simp only [Except.ok.injEq, Prod.mk.injEq] at h
          obtain ⟨rfl, rfl⟩ := h
          obtain ⟨h1, h2, h3⟩ := ih s2 s3 log' hrec
          refine ⟨?_, ?_, ?_⟩
          · intro obs hobs
            rw [h1 obs hobs, hobs2 obs hobs]
            simp only [List.map_cons, List.append_assoc, List.singleton_append]
          · intro hk
            have h2k := h2 hk
            rw [hx2 hk] at h2k
            simp only [List.map_cons, List.flatten_cons, List.append_assoc, h2k,
              List.take_append_drop]
          · intro hk
            rw [h3 hk, hrd2 hk]
            exact last_chunk_cons _ _ _ _
    · simp only [hge, if_false, Except.ok.injEq, Prod.mk.injEq] at h
      obtain ⟨rfl, rfl⟩ := h
      simp only [List.map_nil, List.flatten_nil, List.nil_append, List.getLast?_nil,
        Option.map_none', Option.getD_none, List.append_nil, implies_true, and_self]

/-- Whenever the loop of the at-most policy returns: every chunk of its log was handed to the
consumer, in order (read off the record the consumers keep); for a consumer that leaves `xbuf`
alone the chunks followed by what is left in `xbuf` are the bytes `xbuf` held; and for a
consumer that leaves `rd_buf` alone `rd_buf` holds the last chunk. -/
theorem read_at_most_returned (env : behaviour β) (hdl : connection_handle) (max_bytes : Int) :
    ∀ (fuel : Nat) (s s' : test_multiplexer β) (log : List (buffer_type × Bool)),
      read_at_most env hdl max_bytes fuel s = .ok (s', log) →
      (∀ obs : β → List buffer_type, consumer_records env obs →
          obs s'.ext = obs s.ext ++ log.map Prod.fst) ∧
        (consumer_keeps_xbuf env hdl →
          (log.map Prod.fst).flatten ++ (s'.scribe_data_ hdl).xbuf = (s.scribe_data_ hdl).xbuf) ∧
        (consumer_keeps_rd_buf env hdl →
          (s'.scribe_data_ hdl).rd_buf
            = ((log.getLast?).map Prod.fst).getD (s.scribe_data_ hdl).rd_buf) := by
  intro fuel
  induction fuel with
  | zero =>
    intro s s' log h
    simp only [read_at_most] at h
    cases h
  | succ fuel ih =>
    intro s s' log h
    rw [read_at_most] at h
    by_cases hne : (s.scribe_data_ hdl).xbuf ≠ []
    · by_cases hub : max_bytes < ((s.scribe_data_ hdl).xbuf.length : Int) ∧ max_bytes < 0
      · simp only [hne, ne_eq, not_false_eq_true, if_true, hub, and_self] at h
        cases h
      · obtain ⟨k, hk⟩ : ∃ k : Nat,
            k = (if max_bytes < ((s.scribe_data_ hdl).xbuf.length : Int) then max_bytes.toNat
              else (s.scribe_data_ hdl).xbuf.length) := ⟨_, rfl⟩
        obtain ⟨s1, hs1⟩ : ∃ s1 : test_multiplexer β, s1 = modify_scribe hdl (fun sd =>
            { sd with rd_buf := sd.xbuf.take k, xbuf := sd.xbuf.drop k }) s := ⟨_, rfl⟩
        have hr1 : s1.scribe_data_ hdl = { s.scribe_data_ hdl with
            rd_buf := (s.scribe_data_ hdl).xbuf.take k,
            xbuf := (s.scribe_data_ hdl).xbuf.drop k } := by
          rw [hs1]; simp only [modify_scribe, Function.update_same]
        simp only [hne, ne_eq, not_false_eq_true, if_true, hub, if_false, ← hk, ← hs1] at h
        cases hp : (s.scribe_data_ hdl).ptr with
        | none =>
          rw [consume_rd_buf_of_null env hdl s1 (by rw [hr1]; exact hp)] at h
          cases h
        | some impl =>
          obtain ⟨s2, hc, _, hobs2, hx2, hrd2, _⟩ := hand_over env hdl (fun sd =>
            { sd with rd_buf := sd.xbuf.take k, xbuf := sd.xbuf.drop k }) s impl hp
          rw [← hs1] at hc
          simp only [] at hc hobs2 hx2 hrd2
          simp only [hc, hr1] at h
          cases hrec : read_at_most env hdl max_bytes fuel s2 with
          | error e =>
            rw [hrec] at h
            cases h
          | ok r =>
            obtain ⟨s3, log'⟩ := r
            rw [hrec] at h
            simp only [Except.ok.injEq, Prod.mk.injEq] at h
            obtain ⟨rfl, rfl⟩ := h
            obtain ⟨h1, h2, h3⟩ := ih s2 s3 log' hrec
            refine ⟨?_, ?_, ?_⟩
            · intro obs hobs
              rw [h1 obs hobs, hobs2 obs hobs]
              simp only [List.map_cons, List.append_assoc, List.singleton_append]
            · intro hkx
              have h2k := h2 hkx
              rw [hx2 hkx] at h2k
              simp only [List.map_cons, List.flatten_cons, List.append_assoc, h2k,
                List.take_append_drop]
            · intro hkr
              rw [h3 hkr, hrd2 hkr]
              exact last_chunk_cons _ _ _ _
    · have he : (s.scribe_data_ hdl).xbuf = [] := by
        by_contra hc; exact hne hc
      simp only [hne, if_false, Except.ok.injEq, Prod.mk.injEq] at h
      obtain ⟨rfl, rfl⟩ := h
      simp only [List.map_nil, List.flatten_nil, List.nil_append, List.getLast?_nil,
        Option.map_none', Option.getD_none, List.append_nil, implies_true, and_self]

/-- The branch of the at-least policy with an implementation installed. With at least
`recv_conf.second` bytes buffered the whole inbound buffer is moved to `rd_buf` and handed to
the consumer, once: the log holds that one chunk with the answer the consumer gave, and the
state afterwards is the one the consumer left, the passive flag apart. With fewer bytes nothing
is handed over and nothing changes. -/
theorem read_at_least_spec (env : behaviour β) (hdl : connection_handle) (impl : scribe_ptr)
    (s : test_multiplexer β) (hptr : (s.scribe_data_ hdl).ptr = some impl) :
    ((s.scribe_data_ hdl).recv_conf.2 ≤ (s.scribe_data_ hdl).xbuf.length →
      ∃ s' : test_multiplexer β,
        read_at_least env hdl s = .ok (s', [((s.scribe_data_ hdl).xbuf,
          (env.consume impl (s.scribe_data_ hdl).xbuf
            (modify_scribe hdl (fun sd => { sd with rd_buf := sd.xbuf, xbuf := [] }) s)).1)]) ∧
        s'.ext = (env.consume impl (s.scribe_data_ hdl).xbuf
            (modify_scribe hdl (fun sd => { sd with rd_buf := sd.xbuf, xbuf := [] }) s)).2.ext ∧
        (∀ obs : β → List buffer_type, consumer_records env obs →
          obs s'.ext = obs s.ext ++ [(s.scribe_data_ hdl).xbuf]) ∧
        (consumer_keeps_xbuf env hdl → (s'.scribe_data_ hdl).xbuf = []) ∧
        (consumer_keeps_rd_buf env hdl →
          (s'.scribe_data_ hdl).rd_buf = (s.scribe_data_ hdl).xbuf)) ∧
    ((s.scribe_data_ hdl).xbuf.length < (s.scribe_data_ hdl).recv_conf.2 →
      read_at_least env hdl s = .ok (s, [])) := by
  constructor
  · intro hge
    obtain ⟨s2, hc, hext, hobs2, hx2, hrd2, _⟩ := hand_over env hdl (fun sd =>
      { sd with rd_buf := sd.xbuf, xbuf := [] }) s impl hptr
    simp only [] at hc hext hobs2 hx2 hrd2
    obtain ⟨s1, hs1⟩ : ∃ s1 : test_multiplexer β, s1 = modify_scribe hdl (fun sd =>
        { sd with rd_buf := sd.xbuf, xbuf := [] }) s := ⟨_, rfl⟩
    have hr1 : (s1.scribe_data_ hdl).rd_buf = (s.scribe_data_ hdl).xbuf := by
      rw [hs1]; simp only [modify_scribe, Function.update_same]
    rw [← hs1] at hc hext ⊢
    refine ⟨s2, ?_, hext, hobs2, hx2, hrd2⟩
    rw [read_at_least]
    simp only [ge_iff_le, hge, if_true, ← hs1, hc, hr1]
  · intro hlt
    rw [read_at_least]
    simp only [ge_iff_le, Nat.not_le.mpr hlt, if_false]

/-- Whenever the branch of the at-least policy returns: the chunk of its log, if any, was
handed to the consumer; for a consumer that leaves `xbuf` alone the chunk followed by what is
left in `xbuf` is what `xbuf` held; and for a consumer that leaves `rd_buf` alone `rd_buf`
holds that chunk. -/
theorem read_at_least_returned (env : behaviour β) (hdl : connection_handle)
    (s s' : test_multiplexer β) (log : List (buffer_type × Bool))
    (h : read_at_least env hdl s = .ok (s', log)) :
    (∀ obs : β → List buffer_type, consumer_records env obs →
        obs s'.ext = obs s.ext ++ log.map Prod.fst) ∧
      (consumer_keeps_xbuf env hdl →
        (log.map Prod.fst).flatten ++ (s'.scribe_data_ hdl).xbuf = (s.scribe_data_ hdl).xbuf) ∧
      (consumer_keeps_rd_buf env hdl →
        (s'.scribe_data_ hdl).rd_buf
          = ((log.getLast?).map Prod.fst).getD (s.scribe_data_ hdl).rd_buf) := by
  cases hp : (s.scribe_data_ hdl).ptr with
  | none =>
    rw [read_at_least] at h
    by_cases hge : (s.scribe_data_ hdl).xbuf.length ≥ (s.scribe_data_ hdl).recv_conf.2
    · simp only [hge, if_true] at h
      rw [consume_rd_buf_of_null env hdl _
        (by simp only [modify_scribe, Function.update_same]; exact hp)] at h
      cases h
    · simp only [hge, if_false, Except.ok.injEq, Prod.mk.injEq] at h
      obtain ⟨rfl, rfl⟩ := h
      simp only [List.map_nil, List.flatten_nil, List.nil_append, List.getLast?_nil,
        Option.map_none', Option.getD_none, List.append_nil, implies_true, and_self]
  | some impl =>
    obtain ⟨h1, h2⟩ := read_at_least_spec env hdl impl s hp
    by_cases hge : (s.scribe_data_ hdl).recv_conf.2 ≤ (s.scribe_data_ hdl).xbuf.length
    · obtain ⟨t, hrun, _, hobs, hx, hrd⟩ := h1 hge
      rw [hrun] at h
      simp only [Except.ok.injEq, Prod.mk.injEq] at h
      obtain ⟨rfl, rfl⟩ := h
      refine ⟨?_, ?_, ?_⟩
      · intro obs ho
        rw [hobs obs ho]
        rfl
      · intro hk
        simp only [List.map_cons, List.map_nil, List.flatten_cons, List.flatten_nil,
          List.append_nil, hx hk]
      · intro hk
        simp only [hrd hk, List.getLast?_singleton, Option.map_some', Option.getD_some]
    · rw [h2 (Nat.lt_of_not_le hge)] at h
      simp only [Except.ok.injEq, Prod.mk.injEq] at h
      obtain ⟨rfl, rfl⟩ := h
      simp only [List.map_nil, List.flatten_nil, List.nil_append, List.getLast?_nil,
        Option.map_none', Option.getD_none, List.append_nil, implies_true, and_self]

/-- Whenever `read_data` returns on a non-passive connection whose implementation is installed
once the queued resumables have run: every chunk of its log was handed to the consumer, in
order; for a consumer that leaves `xbuf` alone the chunks followed by what is left in `xbuf`
are the bytes `xbuf` held when the chunk delivery started; for a consumer that leaves `rd_buf`
alone `rd_buf` holds the last chunk. -/
theorem read_data_returned (env : behaviour β) (fuel : Nat) (hdl : connection_handle)
    (s s1 : test_multiplexer β) (impl : scribe_ptr)
    (hpass : passive_mode s hdl = false)
    (hflush : flush_runnables env fuel s = .ok s1)
    (hptr : (s1.scribe_data_ hdl).ptr = some impl)
    (s' : test_multiplexer β) (log : List (buffer_type × Bool))
    (h : read_data env fuel hdl s = .ok (s', log)) :
    (∀ obs : β → List buffer_type, consumer_records env obs →
        obs s'.ext = obs s1.ext ++ log.map Prod.fst) ∧
      (consumer_keeps_xbuf env hdl →
        (log.map Prod.fst).flatten ++ (s'.scribe_data_ hdl).xbuf = (s1.scribe_data_ hdl).xbuf) ∧
      (consumer_keeps_rd_buf env hdl →
        (s'.scribe_data_ hdl).rd_buf
          = ((log.getLast?).map Prod.fst).getD (s1.scribe_data_ hdl).rd_buf) := by
  rw [read_data_of_ready env fuel hdl s s1 impl hpass hflush hptr] at h
  cases hpol : (s1.scribe_data_ hdl).recv_conf.1 with
  | exactly =>
    rw [hpol] at h
    exact read_exactly_returned env hdl fuel s1 s' log h
  | at_least =>
    rw [hpol] at h
    exact read_at_least_returned env hdl s1 s' log h
  | at_most =>
    rw [hpol] at h
    exact read_at_most_returned env hdl _ fuel s1 s' log h

/-- Claim C2 fails on the code. Exactly-3 policy, nine bytes buffered, a consumer that logs
what it receives and rejects every chunk: the first rejection marks the connection passive, yet
the loop goes on and hands the second and the third chunk to the consumer as well (its log
holds all three), and no byte stays in `xbuf`. Likewise under the at-most-3 policy on seven
bytes. Only the next call of `read_data` looks at the passive flag: it hands over nothing. -/
theorem read_data_feeds_refusing_consumer :
    (∃ s' : test_multiplexer (List buffer_type),
      read_data (recording false) 10 0
          (recorded receive_policy_flag.exactly 3 [1, 2, 3, 4, 5, 6, 7, 8, 9])
        = .ok (s', [([1, 2, 3], false), ([4, 5, 6], false), ([7, 8, 9], false)]) ∧
      s'.ext = [[1, 2, 3], [4, 5, 6], [7, 8, 9]] ∧
      (s'.scribe_data_ 0).xbuf = [] ∧
      (s'.scribe_data_ 0).passive_mode = true ∧
      read_data (recording false) 10 0 s' = .ok (s', [])) ∧
    (∃ s' : test_multiplexer (List buffer_type),
      read_data (recording false) 10 0
          (recorded receive_policy_flag.at_most 3 [1, 2, 3, 4, 5, 6, 7])
        = .ok (s', [([1, 2, 3], false), ([4, 5, 6], false), ([7], false)]) ∧
      s'.ext = [[1, 2, 3], [4, 5, 6], [7]] ∧
      (s'.scribe_data_ 0).xbuf = [] ∧
      (s'.scribe_data_ 0).passive_mode = true ∧
      read_data (recording false) 10 0 s' = .ok (s', [])) :=
  ⟨⟨_, rfl, rfl, rfl, rfl, rfl⟩, ⟨_, rfl, rfl, rfl, rfl, rfl⟩⟩

/-- At-most-N policy with `1 ≤ N < 2^63` and a consumer accepting every chunk and leaving alone
what the loop reads: `read_data` hands `⌈L / N⌉` chunks to the consumer in order (whatever
record `obs` the consumers keep of the chunks they are called with grows by exactly these
chunks), each of at most `N` bytes and each but the last of exactly `N` bytes, and leaves `xbuf`
empty. -/
theorem read_data_at_most_in_range (env : behaviour β) (fuel : Nat) (hdl : connection_handle)
    (s s1 : test_multiplexer β) (impl : scribe_ptr) (N : Nat)
    (hpass : passive_mode s hdl = false)
    (hflush : flush_runnables env fuel s = .ok s1)
    (hptr : (s1.scribe_data_ hdl).ptr = some impl)
    (hconf : (s1.scribe_data_ hdl).recv_conf = (receive_policy_flag.at_most, N))
    (hN : 1 ≤ N) (hmax : N < 2 ^ 63)
    (hkeep : consumer_keeps_input env hdl) (hacc : consumer_accepts env)
    (hfuel : (s1.scribe_data_ hdl).xbuf.length < fuel) :
    ∃ (s' : test_multiplexer β) (log : List (buffer_type × Bool)),
      read_data env fuel hdl s = .ok (s', log) ∧
      log.length = ((s1.scribe_data_ hdl).xbuf.length + N - 1) / N ∧
      (log.map Prod.fst).flatten = (s1.scribe_data_ hdl).xbuf ∧
      (∀ e ∈ log, e.1.length ≤ N ∧ e.2 = true) ∧
      (∀ i : Nat, i + 1 < log.length → ((log.map Prod.fst)[i]?).map List.length = some N) ∧
      (∀ obs : β → List buffer_type, consumer_records env obs →
        obs s'.ext = obs s1.ext ++ log.map Prod.fst) ∧
      (s'.scribe_data_ hdl).xbuf = [] := by
  have hrd := read_data_of_ready env fuel hdl s s1 impl hpass hflush hptr
  have hc1 : (s1.scribe_data_ hdl).recv_conf.1 = receive_policy_flag.at_most := by rw [hconf]
  have hc2 : (s1.scribe_data_ hdl).recv_conf.2 = N := by rw [hconf]
  obtain ⟨s', log, hrun, hcat, hemp, hcount, _, hsz, hfull, hans, _, _⟩ :=
    read_at_most_total env hdl hkeep N hN impl fuel s1 hptr hfuel
  refine ⟨s', log, ?_, hcount, hcat, ?_, hfull, ?_, hemp⟩
  · rw [hrd, hc1, hc2, to_ptrdiff_of_lt N hmax]; exact hrun
  · intro e he
    obtain ⟨st, hst⟩ := hans e he
    rw [hacc] at hst
    exact ⟨(hsz e he).2, hst⟩
  · exact (read_at_most_returned env hdl _ fuel s1 s' log hrun).1

/-- At-most-3 policy on seven bytes with a consumer that logs what it receives: chunks of
sizes 3, 3, 1 are handed over and the log of the consumer holds just these. -/
theorem read_data_at_most_in_range_witness :
    ∃ (s' : test_multiplexer (List buffer_type)) (log : List (buffer_type × Bool)),
      read_data (recording true) 8 0
          (recorded receive_policy_flag.at_most 3 [1, 2, 3, 4, 5, 6, 7]) = .ok (s', log) ∧
        log.length = 3 ∧ (log.map Prod.fst).flatten = [1, 2, 3, 4, 5, 6, 7] ∧
        s'.ext = log.map Prod.fst ∧
        (s'.scribe_data_ 0).xbuf = [] := by
  obtain ⟨s', log, h1, h2, h3, _, _, h6, h7⟩ := read_data_at_most_in_range (recording true) 8 0
    (recorded receive_policy_flag.at_most 3 [1, 2, 3, 4, 5, 6, 7])
    (recorded receive_policy_flag.at_most 3 [1, 2, 3, 4, 5, 6, 7]) 0 3
    rfl rfl rfl rfl (by decide) (by decide) (fun _ _ _ => ⟨rfl, rfl, rfl⟩) (fun _ _ _ => rfl)
    (by decide)
  exact ⟨s', log, h1, h2, h3, h6 id (fun _ _ _ => rfl), h7⟩

/-- Claim C4 fails on the code at `N = 2^63` with one byte buffered: the cast of `N` to
`ptrdiff_t` is negative, the end of the chunk becomes `first + max_bytes`, and the call has
undefined behaviour instead of handing over the one-byte chunk. -/
theorem read_data_at_most_overflow :
    read_data accepting 4 0 (connection receive_policy_flag.at_most (2 ^ 63) [1])
      = .error fault.undefined := by
  rfl

end test_multiplexer

namespace fused_downstream_manager

variable {n : Nat} {W : Type}

/-- Adding up modulo `M` from a start below `M` stays below `M`. -/
theorem foldl_add_mod_lt {ι : Type} (f : ι → Nat) (M : Nat) (l : List ι) :
    ∀ r0 : Nat, r0 < M → l.foldl (fun result i => (result + f i) % M) r0 < M := by
  induction l with
  | nil => intro r0 h; exact h
  | cons a l ih =>
    intro r0 h
    exact ih _ (Nat.mod_lt _ (Nat.lt_of_le_of_lt (Nat.zero_le r0) h))

/-- Adding up modulo `M` gives the sum modulo `M`. -/
theorem foldl_add_mod {ι : Type} (f : ι → Nat) (M : Nat) (l : List ι) :
    ∀ r0 : Nat, l.foldl (fun result i => (result + f i) % M) r0 % M
      = (r0 + (l.map f).sum) % M := by
  induction l with
  | nil => intro r0; simp only [List.foldl_nil, List.map_nil, List.sum_nil, Nat.add_zero]
  | cons a l ih =>
    intro r0
    simp only [List.foldl_cons, List.map_cons, List.sum_cons]
    rw [ih, Nat.mod_add_mod, Nat.add_assoc]

/-- Claim C11: `buffered(slot)` is the sum, in `size_t` arithmetic, of what every nested manager
reports for the slot; hence when one nested manager reports `K` (a `size_t`) and every other one
reports 0, `buffered(slot)` is `K`, however many nested managers are fused. -/
theorem buffered_slot_eq_sum (q : downstream_metrics n W) (slot : stream_slot)
    (x : fused_downstream_manager n W) :
    buffered_slot q slot x = (∑ i : Fin n, q.buffered_slot i slot x.nested_) % 2 ^ 64 ∧
      (∀ (M : Fin n) (K : Nat), q.buffered_slot M slot x.nested_ = K →
        (∀ i : Fin n, i ≠ M → q.buffered_slot i slot x.nested_ = 0) → K < 2 ^ 64 →
        buffered_slot q slot x = K) := by
  have hsum : buffered_slot q slot x
      = (∑ i : Fin n, q.buffered_slot i slot x.nested_) % 2 ^ 64 := by
    have h1 := foldl_add_mod (fun i => q.buffered_slot i slot x.nested_) (2 ^ 64) (ptrs_ n) 0
    have h2 := foldl_add_mod_lt (fun i => q.buffered_slot i slot x.nested_) (2 ^ 64) (ptrs_ n) 0
      (by decide)
    rw [Nat.mod_eq_of_lt h2, Nat.zero_add] at h1
    rw [buffered_slot, h1, ptrs_, Fin.sum_univ_def]
  refine ⟨hsum, ?_⟩
  intro M K hK hz hlt
  rw [hsum, Finset.sum_eq_single M (fun i _ hi => hz i hi)
    (fun h => absurd (Finset.mem_univ M) h), hK, Nat.mod_eq_of_lt hlt]

/-- Folding `min` over a list: the result is a lower bound of the start and of every element,
and it is the start or one of the elements. -/
theorem foldl_min_spec {ι : Type} (f : ι → Nat) (l : List ι) :
    ∀ r0 : Nat, l.foldl (fun result i => min result (f i)) r0 ≤ r0 ∧
      (∀ i ∈ l, l.foldl (fun result i => min result (f i)) r0 ≤ f i) ∧
      (l.foldl (fun result i => min result (f i)) r0 = r0 ∨
        ∃ i ∈ l, l.foldl (fun result i => min result (f i)) r0 = f i) := by
  induction l with
  | nil =>
    intro r0
    exact ⟨Nat.le_refl _, fun i hi => absurd hi (List.not_mem_nil i), Or.inl rfl⟩
  | cons a l ih =>
    intro r0
    obtain ⟨h1, h2, h3⟩ := ih (min r0 (f a))
    simp only [List.foldl_cons]
    refine ⟨Nat.le_trans h1 (Nat.min_le_left _ _), ?_, ?_⟩
    · intro i hi
      rcases List.mem_cons.mp hi with rfl | hi
      · exact Nat.le_trans h1 (Nat.min_le_right _ _)
      · exact h2 i hi
    · rcases h3 with h3 | ⟨i, hi, h3⟩
      · rcases Nat.le_total r0 (f a) with hle | hle
        · left; rw [h3, Nat.min_eq_left hle]
        · right; exact ⟨a, List.mem_cons_self _ _, by rw [h3, Nat.min_eq_right hle]⟩
      · right; exact ⟨i, List.mem_cons_of_mem _ hi, h3⟩

/-- Folding `max` over a list: the result is an upper bound of the start and of every element,
and it is the start or one of the elements. -/
theorem foldl_max_spec {ι : Type} (f : ι → Nat) (l : List ι) :
    ∀ r0 : Nat, r0 ≤ l.foldl (fun result i => max result (f i)) r0 ∧
      (∀ i ∈ l, f i ≤ l.foldl (fun result i => max result (f i)) r0) ∧
      (l.foldl (fun result i => max result (f i)) r0 = r0 ∨
        ∃ i ∈ l, l.foldl (fun result i => max result (f i)) r0 = f i) := by
  induction l with
  | nil =>
    intro r0
    exact ⟨Nat.le_refl _, fun i hi => absurd hi (List.not_mem_nil i), Or.inl rfl⟩
  | cons a l ih =>
    intro r0
    obtain ⟨h1, h2, h3⟩ := ih (max r0 (f a))
    simp only [List.foldl_cons]
    refine ⟨Nat.le_trans (Nat.le_max_left _ _) h1, ?_, ?_⟩
    · intro i hi
      rcases List.mem_cons.mp hi with rfl | hi
      · exact Nat.le_trans (Nat.le_max_right _ _) h1
      · exact h2 i hi
    · rcases h3 with h3 | ⟨i, hi, h3⟩
      · rcases Nat.le_total r0 (f a) with hle | hle
        · right; exact ⟨a, List.mem_cons_self _ _, by rw [h3, Nat.max_eq_right hle]⟩
        · left; rw [h3, Nat.max_eq_left hle]
      · right; exact ⟨i, List.mem_cons_of_mem _ hi, h3⟩

/-- Claim C12: over a non-empty tuple of nested managers whose capacities are `size_t` values,
`capacity()` is the minimum of the reported capacities and `buffered()` the maximum of the
reported buffer sizes: each is a bound of every report and is itself one of the reports. -/
theorem capacity_min_buffered_max (q : downstream_metrics n W)
    (x : fused_downstream_manager n W) (hn : 0 < n)
    (hsize : ∀ i : Fin n, q.capacity i x.nested_ ≤ size_t_max) :
    ((∀ i : Fin n, capacity q x ≤ q.capacity i x.nested_) ∧
        ∃ i : Fin n, capacity q x = q.capacity i x.nested_) ∧
      ((∀ i : Fin n, q.buffered i x.nested_ ≤ buffered q x) ∧
        ∃ i : Fin n, buffered q x = q.buffered i x.nested_) := by
  have i0 : Fin n := ⟨0, hn⟩
  have hmem : ∀ i : Fin n, i ∈ ptrs_ n := fun i => List.mem_finRange i
  constructor
  · obtain ⟨_, h2, h3⟩ := foldl_min_spec (fun i => q.capacity i x.nested_) (ptrs_ n) size_t_max
    refine ⟨fun i => h2 i (hmem i), ?_⟩
    rcases h3 with h3 | ⟨i, _, h3⟩
    · exact ⟨i0, Nat.le_antisymm (h2 i0 (hmem i0)) (by rw [capacity, h3]; exact hsize i0)⟩
    · exact ⟨i, h3⟩
  · obtain ⟨_, h2, h3⟩ := foldl_max_spec (fun i => q.buffered i x.nested_) (ptrs_ n) 0
    refine ⟨fun i => h2 i (hmem i), ?_⟩
    rcases h3 with h3 | ⟨i, _, h3⟩
    · exact ⟨i0, Nat.le_antisymm (by rw [buffered, h3]; exact Nat.zero_le _) (h2 i0 (hmem i0))⟩
    · exact ⟨i, h3⟩

/-- Claim C20: `close()` and `abort(reason)` run the operation of each nested manager once, in
the order of `ptrs_`, which lists the nested managers `0, 1, ..., n-1` in construction order,
whatever the state of the router; afterwards `paths_` is empty (`num_paths()` is 0 and
`path(s)` is null for every `s`) and `unassigned_paths_` is what it was. -/
theorem close_abort_broadcast (dm : downstream_manager n W) (reason : error)
    (x : fused_downstream_manager n W) :
    (ptrs_ n).map Fin.val = List.range n ∧
      ((close dm x).nested_ = (ptrs_ n).foldl (fun w ptr => dm.close ptr w) x.nested_ ∧
        num_paths (close dm x) = 0 ∧ (∀ s : stream_slot, path s (close dm x) = none) ∧
        (close dm x).unassigned_paths_ = x.unassigned_paths_) ∧
      ((abort dm reason x).nested_
          = (ptrs_ n).foldl (fun w ptr => dm.abort ptr reason w) x.nested_ ∧
        num_paths (abort dm reason x) = 0 ∧
        (∀ s : stream_slot, path s (abort dm reason x) = none) ∧
        (abort dm reason x).unassigned_paths_ = x.unassigned_paths_) := by
  refine ⟨List.map_coe_finRange n, ⟨rfl, rfl, fun s => rfl, rfl⟩, ⟨rfl, rfl, fun s => rfl, rfl⟩⟩

end fused_downstream_manager

namespace fused_downstream_manager

/-- Claim C11 with three fused nested managers of which the second reports 42 for slot 5. -/
theorem buffered_slot_eq_sum_witness :
    buffered_slot sample_metrics 5 (empty ()) = 42 :=
  (buffered_slot_eq_sum sample_metrics 5 (empty ())).2 1 42 (by decide) (by decide) (by decide)

/-- Claim C12 with three fused nested managers reporting capacities 7, 3, 9 and buffer sizes
1, 4, 2. -/
theorem capacity_min_buffered_max_witness :
    ((∀ i : Fin 3, capacity sample_metrics (empty ()) ≤ sample_metrics.capacity i ()) ∧
        ∃ i : Fin 3, capacity sample_metrics (empty ()) = sample_metrics.capacity i ()) ∧
      ((∀ i : Fin 3, sample_metrics.buffered i () ≤ buffered sample_metrics (empty ())) ∧
        ∃ i : Fin 3, buffered sample_metrics (empty ()) = sample_metrics.buffered i ()) :=
  capacity_min_buffered_max sample_metrics (empty ()) (by decide) (by decide)

end fused_downstream_manager

namespace test_multiplexer

variable {β : Type}

/-- Without a pending connection of the acceptor, `new_connection()` reports success and
changes nothing. -/
theorem new_connection_of_none (env : behaviour β) (dptr : doorman_ptr) (hdl : accept_handle)
    (s : test_multiplexer β) (hnone : ∀ c : connection_handle, (hdl, c) ∉ s.pending_connects_) :
    new_connection env dptr hdl s = (true, s) := by
  have hfound : s.pending_connects_.filter (fun e => e.1 == hdl) = [] := by
    rw [List.filter_eq_nil_iff]
    intro e he hk
    have h1 : e.1 = hdl := by simpa using hk
    exact hnone e.2 (by rw [← h1]; exact he)
  simp only [new_connection, hfound, List.getElem?_nil]

/-- Claim C13, what the code does instead: a non-passive acceptor with an installed
implementation and no pending connection gets `true` from `accept_connection`. -/
theorem accept_connection_true_without_pending :
    ((listening []).doorman_data_ 0).passive_mode = false ∧
      ((listening []).doorman_data_ 0).ptr = some 0 ∧
      (listening []).pending_connects_ = [] ∧
      (accept_connection accepting 0 (listening [])).1 = true := by
  decide

/-- Claim C13, amended: for an acceptor without a pending connection in the pending-connect
map, `accept_connection` leaves the passive flag of the acceptor, and the rest of the
multiplexer, unchanged; it returns `false` when the acceptor is passive or has no implementation
installed and `true` for a non-passive acceptor with an installed implementation. -/
theorem accept_connection_without_pending (env : behaviour β) (hdl : accept_handle)
    (s : test_multiplexer β) (hnone : ∀ c : connection_handle, (hdl, c) ∉ s.pending_connects_) :
    (accept_connection env hdl s).2 = s ∧
      (accept_connection env hdl s).1
        = (!(s.doorman_data_ hdl).passive_mode && (s.doorman_data_ hdl).ptr.isSome) := by
  unfold accept_connection
  cases hp : (s.doorman_data_ hdl).passive_mode with
  | true => simp only [if_true, Bool.not_true, Bool.false_and, and_self]
  | false =>
    cases hi : (s.doorman_data_ hdl).ptr with
    | none => simp [Option.isSome]
    | some dptr =>
      simp only [Bool.false_eq_true, if_false, new_connection_of_none env dptr hdl s hnone,
        Bool.true_eq_false, Bool.not_false, Option.isSome_some, Bool.and_self, and_self]

/-- Claim C13, amended, at a non-passive acceptor with an installed implementation. -/
theorem accept_connection_without_pending_witness :
    (accept_connection accepting 0 (listening [(1, 5)])).2 = listening [(1, 5)] ∧
      (accept_connection accepting 0 (listening [(1, 5)])).1 = true :=
  accept_connection_without_pending accepting 0 (listening [(1, 5)])
    (fun _ h => by cases List.mem_singleton.mp h)

end test_multiplexer

namespace test_multiplexer

variable {β : Type}

/-- A resumable that is done after its resume is released and not put back. -/
theorem exec_of_logs_and_spawns (env : behaviour (List resumable_ptr))
    (spawn : resumable_ptr → Option resumable_ptr) (hlog : logs_and_spawns env spawn)
    (ptr : resumable_ptr) (s : test_multiplexer (List resumable_ptr)) :
    exec env ptr s = intrusive_ptr_release ptr (env.resume ptr s).2 := by
  simp only [exec, (hlog ptr s).1]

/-- Resuming the items of a burst in order: their spawned items are appended to the queue and
they are logged in order. -/
theorem foldl_exec_of_logs_and_spawns (env : behaviour (List resumable_ptr))
    (spawn : resumable_ptr → Option resumable_ptr) (hlog : logs_and_spawns env spawn)
    (l : List resumable_ptr) :
    ∀ s : test_multiplexer (List resumable_ptr),
      (l.foldl (fun st ptr => exec env ptr st) s).resumables_
          = s.resumables_ ++ l.filterMap spawn ∧
        (l.foldl (fun st ptr => exec env ptr st) s).ext = s.ext ++ l := by
  induction l with
  | nil =>
    intro s
    simp only [List.foldl_nil, List.filterMap_nil, List.append_nil, and_self]
  | cons a l ih =>
    intro s
    obtain ⟨h1, h2⟩ := ih (exec env a s)
    obtain ⟨_, h3, h4⟩ := hlog a s
    rw [List.foldl_cons, h1, h2, exec_of_logs_and_spawns env spawn hlog]
    simp only [intrusive_ptr_release]
    rw [h3, h4]
    constructor
    · cases hsp : spawn a with
      | none => simp only [Option.toList, List.append_nil, List.filterMap_cons, hsp]
      | some c =>
        simp only [Option.toList, List.filterMap_cons, hsp, List.append_assoc,
          List.singleton_append]
    · simp only [List.append_assoc, List.singleton_append]

/-- The loop of `flush_runnables` on a queue `a ++ b` in which the items of `b` spawn nothing
and the items of `a` spawn at most one item that spawns nothing. -/
theorem flush_runnables_two_generations (env : behaviour (List resumable_ptr))
    (spawn : resumable_ptr → Option resumable_ptr) (hlog : logs_and_spawns env spawn) :
    ∀ (fuel : Nat) (a b : List resumable_ptr) (s : test_multiplexer (List resumable_ptr)),
      s.resumables_ = a ++ b →
      (∀ p ∈ a, ∀ c : resumable_ptr, spawn p = some c → spawn c = none) →
      (∀ p ∈ b, spawn p = none) →
      2 * a.length + b.length < fuel →
      ∃ s' : test_multiplexer (List resumable_ptr),
        flush_runnables env fuel s = .ok s' ∧ s'.resumables_ = [] ∧
          s'.ext = s.ext ++ a ++ b ++ a.filterMap spawn := by
  intro fuel
  induction fuel with
  | zero => intro a b s _ _ _ h; exact absurd h (Nat.not_lt_zero _)
  | succ fuel ih =>
    intro a b s hq ha hb hfuel
    have hleaf : ∀ l : List resumable_ptr, (∀ p ∈ l, spawn p = none) → l.filterMap spawn = [] := by
      intro l hl
      rw [List.filterMap_eq_nil_iff]
      exact hl
    have hchild : ∀ l : List resumable_ptr, (∀ p ∈ l, p ∈ a) →
        ∀ c ∈ l.filterMap spawn, spawn c = none := by
      intro l hl c hc
      obtain ⟨p, hp, hpc⟩ := List.mem_filterMap.mp hc
      exact ha p (hl p hp) c hpc
    by_cases hempty : a ++ b = []
    · obtain ⟨ha0, hb0⟩ := List.append_eq_nil.mp hempty
      subst ha0 hb0
      refine ⟨{ s with resumables_ := [] }, ?_, rfl, ?_⟩
      · rw [flush_runnables]
        simp only [hq, List.append_nil, List.take_nil, List.drop_nil, List.foldl_nil,
          List.isEmpty_nil, if_true]
      · simp only [List.append_nil, List.filterMap_nil]
    · -- a burst of at least one item
      obtain ⟨hr, he⟩ := foldl_exec_of_logs_and_spawns env spawn hlog
        ((a ++ b).take max_runnable_count)
        { s with resumables_ := (a ++ b).drop max_runnable_count }
      simp only [] at hr he
      have hne : ((a ++ b).take max_runnable_count).isEmpty = false := by
        cases hab : a ++ b with
        | nil => exact absurd hab hempty
        | cons x xs => rfl
      have hstep : flush_runnables env (fuel + 1) s = flush_runnables env fuel
          (((a ++ b).take max_runnable_count).foldl (fun st ptr => exec env ptr st)
            { s with resumables_ := (a ++ b).drop max_runnable_count }) := by
        rw [flush_runnables]
        simp only [hq, hne, Bool.false_eq_true, if_false]
      have hpos : 0 < a.length + b.length := by
        rw [← List.length_append]
        exact List.length_pos.mpr hempty
      by_cases hlong : max_runnable_count ≤ a.length
      · -- the burst is taken from `a` alone
        have htake : (a ++ b).take max_runnable_count = a.take max_runnable_count :=
          List.take_append_of_le_length hlong
        have hdrop : (a ++ b).drop max_runnable_count = a.drop max_runnable_count ++ b :=
          List.drop_append_of_le_length hlong
        rw [htake, hdrop] at hr he hstep
        obtain ⟨s', hrun, hnil, hext⟩ := ih (a.drop max_runnable_count)
          (b ++ (a.take max_runnable_count).filterMap spawn) _
          (by rw [hr, List.append_assoc])
          (fun p hp => ha p (List.mem_of_mem_drop hp))
          (by
            intro p hp
            rcases List.mem_append.mp hp with hp | hp
            · exact hb p hp
            · exact hchild _ (fun p hp => List.mem_of_mem_take hp) p hp)
          (by
            have h1 := List.length_filterMap_le spawn (a.take max_runnable_count)
            simp only [List.length_append, List.length_drop, List.length_take] at h1 ⊢
            simp only [max_runnable_count] at hlong h1 ⊢
            omega)
        refine ⟨s', by rw [hstep]; exact hrun, hnil, ?_⟩
        rw [hext, he]
        have hsplit : a.filterMap spawn = (a.take max_runnable_count).filterMap spawn
            ++ (a.drop max_runnable_count).filterMap spawn := by
          rw [← List.filterMap_append, List.take_append_drop]
        rw [hsplit]
        simp only [List.append_assoc]
        rw [← List.append_assoc (a.take max_runnable_count), List.take_append_drop]
      · -- the burst takes all of `a` and the first items of `b`
        have hshort : a.length ≤ max_runnable_count := Nat.le_of_lt (Nat.lt_of_not_le hlong)
        have htake : (a ++ b).take max_runnable_count
            = a ++ b.take (max_runnable_count - a.length) := by
          rw [List.take_append_eq_append_take, List.take_of_length_le hshort]
        have hdrop : (a ++ b).drop max_runnable_count
            = b.drop (max_runnable_count - a.length) := by
          rw [List.drop_append_eq_append_drop, List.drop_of_length_le hshort, List.nil_append]
        have hfm : (a ++ b.take (max_runnable_count - a.length)).filterMap spawn
            = a.filterMap spawn := by
          rw [List.filterMap_append, hleaf _ (fun p hp => hb p (List.mem_of_mem_take hp)),
            List.append_nil]
        rw [htake, hdrop, hfm] at hr
        rw [htake, hdrop] at he hstep
        obtain ⟨s', hrun, hnil, hext⟩ := ih []
          (b.drop (max_runnable_count - a.length) ++ a.filterMap spawn) _
          (by rw [hr, List.nil_append])
          (fun p hp => absurd hp (List.not_mem_nil p))
          (by
            intro p hp
            rcases List.mem_append.mp hp with hp | hp
            · exact hb p (List.mem_of_mem_drop hp)
            · exact hchild a (fun p hp => hp) p hp)
          (by
            have h1 := List.length_filterMap_le spawn a
            simp only [List.length_append, List.length_drop, List.length_nil] at h1 ⊢
            simp only [max_runnable_count] at hlong hshort h1 ⊢
            omega)
        refine ⟨s', by rw [hstep]; exact hrun, hnil, ?_⟩
        rw [hext, he]
        simp only [List.append_assoc, List.nil_append, List.filterMap_nil, List.append_nil]
        rw [← List.append_assoc (b.take (max_runnable_count - a.length)),
          List.take_append_drop]

/-- Claim C15: with `k` resumables queued, each done at its first resume and each enqueueing at
most one further resumable that is done at its first resume (`spawn`; none at all covers the
plain case), `flush_runnables` returns, for every `k` (also beyond the burst size 8), with an
empty queue, and the log of resumes is the `k` queued items in queue order followed by the
enqueued items in the order they were enqueued: every item was resumed exactly once. -/
theorem flush_runnables_drains (env : behaviour (List resumable_ptr))
    (spawn : resumable_ptr → Option resumable_ptr) (hlog : logs_and_spawns env spawn)
    (s : test_multiplexer (List resumable_ptr)) (fuel : Nat)
    (hterminal : ∀ p ∈ s.resumables_, ∀ c : resumable_ptr, spawn p = some c → spawn c = none)
    (hfuel : 2 * s.resumables_.length < fuel) :
    ∃ s' : test_multiplexer (List resumable_ptr),
      flush_runnables env fuel s = .ok s' ∧ s'.resumables_ = [] ∧
        s'.ext = s.ext ++ s.resumables_ ++ s.resumables_.filterMap spawn := by
  obtain ⟨s', h1, h2, h3⟩ := flush_runnables_two_generations env spawn hlog fuel
    s.resumables_ [] s (List.append_nil _).symm hterminal
    (fun p hp => absurd hp (List.not_mem_nil p))
    (by simp only [List.length_nil, Nat.add_zero]; exact hfuel)
  exact ⟨s', h1, h2, by rw [h3, List.append_nil]⟩

/-- The behaviour `spawning spawn` logs every resume and enqueues what `spawn` names. -/
theorem spawning_logs_and_spawns (spawn : resumable_ptr → Option resumable_ptr) :
    logs_and_spawns (spawning spawn) spawn := by
  intro ptr s
  refine ⟨rfl, ?_, ?_⟩
  · cases hsp : spawn ptr with
    | none => simp only [spawning, hsp, Option.toList, List.append_nil]
    | some c => simp only [spawning, hsp, exec_later, Option.toList]
  · cases hsp : spawn ptr with
    | none => simp only [spawning, hsp]
    | some c => simp only [spawning, hsp, exec_later]

/-- Claim C15 with ten queued resumables (more than one burst), each enqueueing one further
resumable during its resume. -/
theorem flush_runnables_drains_witness :
    ∃ s' : test_multiplexer (List resumable_ptr),
      flush_runnables (spawning (fun p => if p < 100 then some (p + 100) else none)) 21
          (queued [0, 1, 2, 3, 4, 5, 6, 7, 8, 9]) = .ok s' ∧
        s'.resumables_ = [] ∧
        s'.ext = [0, 1, 2, 3, 4, 5, 6, 7, 8, 9,
          100, 101, 102, 103, 104, 105, 106, 107, 108, 109] := by
  obtain ⟨s', h1, h2, h3⟩ := flush_runnables_drains
    (spawning (fun p => if p < 100 then some (p + 100) else none))
    (fun p => if p < 100 then some (p + 100) else none) (spawning_logs_and_spawns _)
    (queued [0, 1, 2, 3, 4, 5, 6, 7, 8, 9]) 21 (by decide) (by decide)
  exact ⟨s', h1, h2, h3⟩

end test_multiplexer

namespace test_multiplexer

variable {β : Type}

/-- Claim C17: `exec_later(r)` appends `r` as the last element of the queue of the multiplexer,
keeping the earlier elements in order, when the subtype of `r` is `io_actor` or
`function_object`; for every other subtype the queue is unchanged and `r` is handed once to the
scheduler of the actor system. Nothing else changes. -/
theorem exec_later_by_subtype (env : behaviour β) (ptr : resumable_ptr)
    (s : test_multiplexer β) :
    ((env.subtype ptr = subtype_t.io_actor ∨ env.subtype ptr = subtype_t.function_object) →
        exec_later env ptr s = { s with resumables_ := s.resumables_ ++ [ptr] }) ∧
      ((env.subtype ptr ≠ subtype_t.io_actor ∧ env.subtype ptr ≠ subtype_t.function_object) →
        exec_later env ptr s = { s with scheduler_ := s.scheduler_ ++ [ptr] }) := by
  constructor
  · rintro (h | h) <;> simp only [exec_later, h]
  · rintro ⟨h1, h2⟩
    cases h : env.subtype ptr with
    | io_actor => exact absurd h h1
    | function_object => exact absurd h h2
    | other_subtype => simp only [exec_later, h]

/-- Claim C17 at an I/O actor put behind two queued resumables. -/
theorem exec_later_by_subtype_witness :
    (exec_later accepting 3 { connection receive_policy_flag.at_least 0 [] with
        resumables_ := [1, 2] }).resumables_ = [1, 2, 3] := by
  rw [(exec_later_by_subtype accepting 3 { connection receive_policy_flag.at_least 0 [] with
    resumables_ := [1, 2] }).1 (Or.inl rfl)]
  rfl

/-- Claim C16: `exec` resumes the resumable once and then acts on the outcome. On `done` or
`awaiting_message` it gives up one reference to the item (the item joins `released_`) and
leaves everything else, the queue included, as the resume left it: the item is not put back.
On `resume_later` it passes the item to `exec_later` and releases nothing; the item is then at
the back of the queue when its subtype is `io_actor` or `function_object`. On any other outcome
the state is as the resume left it: nothing is released and the queue is unchanged. -/
theorem exec_by_outcome (env : behaviour β) (ptr : resumable_ptr) (s : test_multiplexer β) :
    (((env.resume ptr s).1 = resume_result.done ∨
          (env.resume ptr s).1 = resume_result.awaiting_message) →
        exec env ptr s
            = { (env.resume ptr s).2 with
                released_ := (env.resume ptr s).2.released_ ++ [ptr] } ∧
          (exec env ptr s).released_ = (env.resume ptr s).2.released_ ++ [ptr] ∧
          (exec env ptr s).resumables_ = (env.resume ptr s).2.resumables_ ∧
          (exec env ptr s).scheduler_ = (env.resume ptr s).2.scheduler_) ∧
      ((env.resume ptr s).1 = resume_result.resume_later →
        exec env ptr s = exec_later env ptr (env.resume ptr s).2 ∧
          (exec env ptr s).released_ = (env.resume ptr s).2.released_ ∧
          ((env.subtype ptr = subtype_t.io_actor ∨
              env.subtype ptr = subtype_t.function_object) →
            (exec env ptr s).resumables_ = (env.resume ptr s).2.resumables_ ++ [ptr])) ∧
      ((env.resume ptr s).1 = resume_result.other_result →
        exec env ptr s = (env.resume ptr s).2) := by
  refine ⟨?_, ?_, ?_⟩
  · rintro (h | h) <;> simp only [exec, h, intrusive_ptr_release, and_self]
  · intro h
    have he : exec env ptr s = exec_later env ptr (env.resume ptr s).2 := by
      simp only [exec, h]
    refine ⟨he, ?_, ?_⟩
    · rw [he]
      simp only [exec_later]
      cases env.subtype ptr <;> rfl
    · rintro (hs | hs) <;> rw [he] <;> simp only [exec_later, hs]
  · intro h
    simp only [exec, h]

/-- Claim C16 at three resumables run with item 2 queued behind them: an I/O actor that is
done is released and not put back; one that asks to be resumed later is put back behind item 2
and not released; one with another outcome is neither released nor put back. -/
theorem exec_by_outcome_witness :
    ((exec accepting 1
          { connection receive_policy_flag.at_least 0 [] with resumables_ := [2] }).released_
        = [1] ∧
      (exec accepting 1
          { connection receive_policy_flag.at_least 0 [] with resumables_ := [2] }).resumables_
        = [2]) ∧
    ((exec (resuming resume_result.resume_later) 1
          { connection receive_policy_flag.at_least 0 [] with resumables_ := [2] }).released_
        = [] ∧
      (exec (resuming resume_result.resume_later) 1
          { connection receive_policy_flag.at_least 0 [] with resumables_ := [2] }).resumables_
        = [2, 1]) ∧
    ((exec (resuming resume_result.other_result) 1
          { connection receive_policy_flag.at_least 0 [] with resumables_ := [2] }).released_
        = [] ∧
      (exec (resuming resume_result.other_result) 1
          { connection receive_policy_flag.at_least 0 [] with resumables_ := [2] }).resumables_
        = [2]) :=
  ⟨⟨((exec_by_outcome accepting 1
        { connection receive_policy_flag.at_least 0 [] with resumables_ := [2] }).1
        (Or.inl rfl)).2.1,
      ((exec_by_outcome accepting 1
        { connection receive_policy_flag.at_least 0 [] with resumables_ := [2] }).1
        (Or.inl rfl)).2.2.1⟩,
    ⟨((exec_by_outcome (resuming resume_result.resume_later) 1
        { connection receive_policy_flag.at_least 0 [] with resumables_ := [2] }).2.1 rfl).2.1,
      ((exec_by_outcome (resuming resume_result.resume_later) 1
        { connection receive_policy_flag.at_least 0 [] with resumables_ := [2] }).2.1 rfl).2.2
        (Or.inl rfl)⟩,
    ⟨congrArg test_multiplexer.released_
        ((exec_by_outcome (resuming resume_result.other_result) 1
          { connection receive_policy_flag.at_least 0 [] with resumables_ := [2] }).2.2 rfl),
      congrArg test_multiplexer.resumables_
        ((exec_by_outcome (resuming resume_result.other_result) 1
          { connection receive_policy_flag.at_least 0 [] with resumables_ := [2] }).2.2 rfl)⟩⟩

/-- The three assign operations that install: after `assign_tcp_scribe`, `assign_tcp_doorman`
and `assign_endpoint` the record of the handle holds the new implementation and the broker has
been given it. -/
theorem assign_installs (ptr : abstract_broker) (impl : Nat) (hdl : Int)
    (s : test_multiplexer β) :
    (((assign_tcp_scribe ptr impl hdl s).2.scribe_data_ hdl).ptr = some impl ∧
        (assign_tcp_scribe ptr impl hdl s).2.registered
          = s.registered ++ [(ptr, adapter.scribe impl)]) ∧
      (((assign_tcp_doorman ptr impl hdl s).2.doorman_data_ hdl).ptr = some impl ∧
        (assign_tcp_doorman ptr impl hdl s).2.registered
          = s.registered ++ [(ptr, adapter.doorman impl)]) ∧
      (((assign_endpoint ptr impl hdl s).2.endpoint_data_ hdl).ptr = some impl ∧
        (assign_endpoint ptr impl hdl s).2.registered
          = s.registered ++ [(ptr, adapter.endpoint impl)]) := by
  simp only [assign_tcp_scribe, assign_tcp_doorman, assign_endpoint, Function.update_same,
    and_self]

/-- Claim C18 fails on the code for datagram sinks and sources: `assign_datagram_sink` and
`assign_datagram_source` hand the new implementation to the broker but never store it in the
record of the handle, so `impl_ptr(hdl)` is still null after the call. -/
theorem assign_datagram_skips_install :
    ((assign_datagram_sink 1 7 3 (listening [])).2.datagram_sink_data_ 3).ptr = none ∧
      (assign_datagram_sink 1 7 3 (listening [])).2.registered
        = [(1, adapter.datagram_sink 7)] ∧
      ((assign_datagram_source 1 7 3 (listening [])).2.datagram_source_data_ 3).ptr = none ∧
      (assign_datagram_source 1 7 3 (listening [])).2.registered
        = [(1, adapter.datagram_source 7)] := by
  decide

/-- Claim C19: provided mappings are handed out once. For a key `(host, port)` not yet provided,
after `provide_scribe(host, port, h)` the key is pending and `new_tcp_scribe(host, port)`
returns `h`; after that the key is no longer pending and a second `new_tcp_scribe(host, port)`
returns the default handle, as a value and not as an error; mappings under other keys are those
from before. The same holds for `provide_acceptor` and `new_tcp_doorman`, keyed by port. -/
theorem provided_mapping_single_use (s : test_multiplexer β) (host : String) (port : Nat)
    (h : connection_handle) (a : accept_handle) :
    ((host, port) ∉ s.scribes_ →
        has_pending_scribe host port (provide_scribe host port h s) = true ∧
        (new_tcp_scribe host port (provide_scribe host port h s)).1 = .ok h ∧
        has_pending_scribe host port
          (new_tcp_scribe host port (provide_scribe host port h s)).2 = false ∧
        (new_tcp_scribe host port
          (new_tcp_scribe host port (provide_scribe host port h s)).2).1 = .ok invalid_handle ∧
        (∀ k : String × Nat, k ≠ (host, port) →
          (provide_scribe host port h s).scribes_.lookup k = s.scribes_.lookup k ∧
          (new_tcp_scribe host port (provide_scribe host port h s)).2.scribes_.lookup k
            = s.scribes_.lookup k)) ∧
      (port ∉ s.doormen_ →
        (new_tcp_doorman port (provide_acceptor port a s)).1 = .ok (a, port) ∧
        port ∉ (new_tcp_doorman port (provide_acceptor port a s)).2.doormen_ ∧
        (new_tcp_doorman port
          (new_tcp_doorman port (provide_acceptor port a s)).2).1
            = .ok (invalid_handle, port) ∧
        (∀ k : Nat, k ≠ port →
          (provide_acceptor port a s).doormen_.lookup k = s.doormen_.lookup k ∧
          (new_tcp_doorman port (provide_acceptor port a s)).2.doormen_.lookup k
            = s.doormen_.lookup k)) := by
  constructor
  · intro hfresh
    have hp : (provide_scribe host port h s).scribes_ = s.scribes_.insert (host, port) h := by
      simp only [provide_scribe, hfresh, if_false]
    have hl : (provide_scribe host port h s).scribes_.lookup (host, port) = some h := by
      rw [hp, AList.lookup_insert]
    have hn : new_tcp_scribe host port (provide_scribe host port h s)
        = (.ok h, { provide_scribe host port h s with
            scribes_ := (provide_scribe host port h s).scribes_.erase (host, port) }) := by
      simp only [new_tcp_scribe, hl]
    have hl2 : (new_tcp_scribe host port (provide_scribe host port h s)).2.scribes_.lookup
        (host, port) = none := by
      rw [hn]; exact AList.lookup_erase _ _
    refine ⟨?_, ?_, ?_, ?_, ?_⟩
    · simp only [has_pending_scribe, hp, decide_eq_true_eq]
      exact (AList.mem_insert _).mpr (Or.inl rfl)
    · rw [hn]
    · simp only [has_pending_scribe, decide_eq_false_iff_not]
      exact AList.lookup_eq_none.mp hl2
    · have key : ∀ t : test_multiplexer β, t.scribes_.lookup (host, port) = none →
          (new_tcp_scribe host port t).1 = .ok invalid_handle := by
        intro t ht
        simp only [new_tcp_scribe, ht]
      exact key _ hl2
    · intro k hk
      have h1 : (provide_scribe host port h s).scribes_.lookup k = s.scribes_.lookup k := by
        rw [hp, AList.lookup_insert_ne hk]
      refine ⟨h1, ?_⟩
      rw [hn]
      show AList.lookup k (AList.erase (host, port) (provide_scribe host port h s).scribes_) = _
      rw [AList.lookup_erase_ne hk, h1]
  · intro hfresh
    have hp : (provide_acceptor port a s).doormen_ = s.doormen_.insert port a := by
      simp only [provide_acceptor, hfresh, if_false]
    have hl : (provide_acceptor port a s).doormen_.lookup port = some a := by
      rw [hp, AList.lookup_insert]
    have hn : new_tcp_doorman port (provide_acceptor port a s)
        = (.ok (a, port), { provide_acceptor port a s with
            doormen_ := (provide_acceptor port a s).doormen_.erase port }) := by
      simp only [new_tcp_doorman, hl]
    have hl2 : (new_tcp_doorman port (provide_acceptor port a s)).2.doormen_.lookup port
        = none := by
      rw [hn]; exact AList.lookup_erase _ _
    refine ⟨?_, ?_, ?_, ?_⟩
    · rw [hn]
    · exact AList.lookup_eq_none.mp hl2
    · have key : ∀ t : test_multiplexer β, t.doormen_.lookup port = none →
          (new_tcp_doorman port t).1 = .ok (invalid_handle, port) := by
        intro t ht
        simp only [new_tcp_doorman, ht]
      exact key _ hl2
    · intro k hk
      have h1 : (provide_acceptor port a s).doormen_.lookup k = s.doormen_.lookup k := by
        rw [hp, AList.lookup_insert_ne hk]
      refine ⟨h1, ?_⟩
      rw [hn]
      show AList.lookup k (AList.erase port (provide_acceptor port a s).doormen_) = _
      rw [AList.lookup_erase_ne hk, h1]

/-- Claim C19 at a multiplexer without provided mappings, host "localhost", port 8080. -/
theorem provided_mapping_single_use_witness :
    (new_tcp_scribe "localhost" 8080
        (provide_scribe "localhost" 8080 4 (listening []))).1 = .ok 4 ∧
      (new_tcp_scribe "localhost" 8080 (new_tcp_scribe "localhost" 8080
        (provide_scribe "localhost" 8080 4 (listening []))).2).1 = .ok invalid_handle ∧
      (new_tcp_doorman 8080 (provide_acceptor 8080 6 (listening []))).1 = .ok (6, 8080) ∧
      (new_tcp_doorman 8080 (new_tcp_doorman 8080
        (provide_acceptor 8080 6 (listening []))).2).1 = .ok (invalid_handle, 8080) :=
  have h := provided_mapping_single_use (listening []) "localhost" 8080 4 6
  have hs := h.1 (AList.not_mem_empty _)
  have hd := h.2 (AList.not_mem_empty _)
  ⟨hs.2.1, hs.2.2.2.1, hd.1, hd.2.2.1⟩

end test_multiplexer

namespace fused_downstream_manager

variable {n : Nat} {W : Type}

/-- Claim C21: `insert_path` (the registration of a path) with a slot that is already a key of
`unassigned_paths_` returns `false` and leaves the router, the earlier path of the slot
included, as it was; with a slot that is no key of `unassigned_paths_` it returns `true` and adds
exactly the entry slot -> path to `unassigned_paths_`, leaving `paths_` and the nested managers
as they were. -/
theorem insert_path_registers (ptr : outbound_path) (x : fused_downstream_manager n W) :
    (ptr.sender ∈ x.unassigned_paths_ → insert_path ptr x = (false, x)) ∧
      (ptr.sender ∉ x.unassigned_paths_ →
        (insert_path ptr x).1 = true ∧
        (insert_path ptr x).2.unassigned_paths_.lookup ptr.sender = some ptr ∧
        (∀ other : stream_slot, other ≠ ptr.sender →
          (insert_path ptr x).2.unassigned_paths_.lookup other
            = x.unassigned_paths_.lookup other) ∧
        unordered_flat_map.size (insert_path ptr x).2.unassigned_paths_
          = unordered_flat_map.size x.unassigned_paths_ + 1 ∧
        (insert_path ptr x).2.paths_ = x.paths_ ∧
        (insert_path ptr x).2.nested_ = x.nested_) := by
  constructor
  · intro h
    simp only [insert_path, emplace_of_mem _ _ _ h]
  · intro h
    simp only [insert_path, emplace_of_not_mem _ _ _ h]
    refine ⟨trivial, AList.lookup_insert _, fun other ho => AList.lookup_insert_ne ho, ?_,
      trivial, trivial⟩
    simp only [unordered_flat_map.size, AList.insert_entries_of_neg h, List.length_cons]

/-- Claim C21 at a slot registered twice: the second registration is refused and the first path
stays. -/
theorem insert_path_registers_witness :
    insert_path ⟨5, 1⟩ (insert_path ⟨5, 0⟩ (empty (fun _ => ∅) :
        fused_downstream_manager 1 (Fin 1 → path_map))).2
      = (false, (insert_path ⟨5, 0⟩ (empty (fun _ => ∅))).2) ∧
      (insert_path ⟨5, 0⟩ (empty (fun _ => ∅) :
        fused_downstream_manager 1 (Fin 1 → path_map))).2.unassigned_paths_.lookup 5
          = some ⟨5, 0⟩ :=
  ⟨(insert_path_registers ⟨5, 1⟩ (insert_path ⟨5, 0⟩ (empty (fun _ => ∅))).2).1 (by decide),
    ((insert_path_registers ⟨5, 0⟩ (empty (fun _ => ∅) :
      fused_downstream_manager 1 (Fin 1 → path_map))).2 (by decide)).2.1⟩

/-- Claim C23: conflicting `assign<M>(slot)`. If `slot` is registered in `unassigned_paths_`
with path `p`, `paths_` already has an entry for `slot`, and `M` accepts the new path, then the
nested managers end in the state that the one call
`M.remove_path(slot, sec::invalid_stream_state, false)` produces after the accepted insertion,
`paths_` with its entry for `slot` is unchanged, and `slot` is no key of `unassigned_paths_`. -/
theorem assign_conflicting (dm : downstream_manager n W) (x : fused_downstream_manager n W)
    (M : Fin n) (slot : stream_slot) (p : outbound_path) (i0 : non_owning_ptr n)
    (hreg : x.unassigned_paths_.lookup slot = some p)
    (hmapped : x.paths_.lookup slot = some i0)
    (hacc : (dm.insert_path M p x.nested_).1 = true) :
    (assign dm M slot x).nested_
        = (dm.remove_path M slot error.invalid_stream_state false
            (dm.insert_path M p x.nested_).2).2 ∧
      (assign dm M slot x).paths_ = x.paths_ ∧
      (assign dm M slot x).paths_.lookup slot = some i0 ∧
      slot ∉ (assign dm M slot x).unassigned_paths_ := by
  have hmem : slot ∈ x.paths_ := AList.lookup_isSome.mp (by rw [hmapped]; rfl)
  have hx : assign dm M slot x =
      { x with nested_ := (dm.remove_path M slot error.invalid_stream_state false
                 (dm.insert_path M p x.nested_).2).2,
               unassigned_paths_ := x.unassigned_paths_.erase slot } := by
    simp only [assign, hreg, hacc, emplace_of_mem _ _ _ hmem]
    simp
  rw [hx]
  refine ⟨rfl, rfl, hmapped, ?_⟩
  simp only [AList.mem_erase]
  rintro ⟨h, _⟩
  exact h rfl

/-- Claim C23 at a router with two nested managers: slot 5 is owned by manager 0 when a second
path for slot 5 is assigned to manager 1, which takes it and is told to remove it again. -/
theorem assign_conflicting_witness :
    (assign (path_manager 2) 1 5 (run (path_manager 2) (empty (fun _ => ∅))
        [call.insert_path ⟨5, 0⟩, call.assign 0 5, call.insert_path ⟨5, 1⟩])).paths_.lookup 5
        = some ⟨some ⟨5, 0⟩, 0⟩ ∧
      5 ∉ (assign (path_manager 2) 1 5 (run (path_manager 2) (empty (fun _ => ∅))
        [call.insert_path ⟨5, 0⟩, call.assign 0 5,
          call.insert_path ⟨5, 1⟩])).unassigned_paths_ :=
  have h := assign_conflicting (path_manager 2) (run (path_manager 2) (empty (fun _ => ∅))
    [call.insert_path ⟨5, 0⟩, call.assign 0 5, call.insert_path ⟨5, 1⟩]) 1 5 ⟨5, 1⟩
    ⟨some ⟨5, 0⟩, 0⟩ (by decide) (by decide) (by decide)
  ⟨h.2.2.1, h.2.2.2⟩

end fused_downstream_manager

namespace test_multiplexer

variable {β : Type}

/-- Claim C22: on a connection whose passive flag is set, `read_data` hands no chunk to the
consumer and returns the state it was given (no queued resumable has run; buffers and queue
are untouched), whatever the fuel; hence `virtual_send` only appends the sent bytes to the end
of the inbound buffer. -/
theorem read_data_passive (env : behaviour β) (fuel : Nat) (hdl : connection_handle)
    (buf : buffer_type) (s : test_multiplexer β) (hpass : passive_mode s hdl = true) :
    read_data env fuel hdl s = .ok (s, []) ∧
      virtual_send env fuel hdl buf s
        = .ok (modify_scribe hdl (fun sd => { sd with xbuf := sd.xbuf ++ buf }) s, []) := by
  constructor
  · simp only [read_data, hpass, if_true]
  · have hp : passive_mode
        (modify_scribe hdl (fun sd => { sd with xbuf := sd.xbuf ++ buf }) s) hdl = true := by
      simp only [passive_mode, modify_scribe, Function.update_same] at hpass ⊢
      exact hpass
    simp only [virtual_send, read_data, hp, if_true]

/-- Claim C22 at a passive connection with a queued resumable and two buffered bytes. -/
theorem read_data_passive_witness :
    ∃ s' : test_multiplexer Unit,
      virtual_send accepting 0 0 [3]
          (modify_scribe 0 (fun sd => { sd with passive_mode := true })
            { connection receive_policy_flag.exactly 1 [1, 2] with resumables_ := [9] })
        = .ok (s', []) ∧
      (s'.scribe_data_ 0).xbuf = [1, 2, 3] ∧ (s'.scribe_data_ 0).rd_buf = [] ∧
      s'.resumables_ = [9] :=
  ⟨_, (read_data_passive accepting 0 0 [3]
    (modify_scribe 0 (fun sd => { sd with passive_mode := true })
      { connection receive_policy_flag.exactly 1 [1, 2] with resumables_ := [9] }) rfl).2,
    rfl, rfl, rfl⟩

/-- Claim C27: `add_tcp_scribe(broker, host, port)` returns a handle and never an error.
Without a provided mapping for `(host, port)` it returns the default handle, and still installs
the new implementation in the record of that default handle and registers it with the broker;
with a mapping to `h` it returns `h`, consumes the mapping and installs the implementation
on `h`. -/
theorem add_tcp_scribe_never_fails (ptr : abstract_broker) (sptr : scribe_ptr) (host : String)
    (port : Nat) (s : test_multiplexer β) :
    ((host, port) ∉ s.scribes_ →
        (add_tcp_scribe ptr sptr host port s).1 = .ok invalid_handle ∧
        ((add_tcp_scribe ptr sptr host port s).2.scribe_data_ invalid_handle).ptr = some sptr ∧
        (add_tcp_scribe ptr sptr host port s).2.registered
          = s.registered ++ [(ptr, adapter.scribe sptr)] ∧
        (add_tcp_scribe ptr sptr host port s).2.scribes_ = s.scribes_) ∧
      (∀ h : connection_handle, s.scribes_.lookup (host, port) = some h →
        (add_tcp_scribe ptr sptr host port s).1 = .ok h ∧
        ((add_tcp_scribe ptr sptr host port s).2.scribe_data_ h).ptr = some sptr ∧
        (add_tcp_scribe ptr sptr host port s).2.registered
          = s.registered ++ [(ptr, adapter.scribe sptr)] ∧
        (host, port) ∉ (add_tcp_scribe ptr sptr host port s).2.scribes_) := by
  constructor
  · intro hnone
    have hl : s.scribes_.lookup (host, port) = none := AList.lookup_eq_none.mpr hnone
    simp only [add_tcp_scribe, new_tcp_scribe, hl, assign_tcp_scribe, Function.update_same,
      and_self]
  · intro h hl
    simp only [add_tcp_scribe, new_tcp_scribe, hl, assign_tcp_scribe, Function.update_same,
      true_and]
    simp only [AList.mem_erase]
    rintro ⟨hne, _⟩
    exact hne rfl

/-- Claim C27 at a multiplexer without provided mappings and at one with a mapping to
handle 4. -/
theorem add_tcp_scribe_never_fails_witness :
    (add_tcp_scribe 1 7 "localhost" 8080 (listening [])).1 = .ok invalid_handle ∧
      ((add_tcp_scribe 1 7 "localhost" 8080
        (listening [])).2.scribe_data_ invalid_handle).ptr = some 7 ∧
      (add_tcp_scribe 1 7 "localhost" 8080
        (provide_scribe "localhost" 8080 4 (listening []))).1 = .ok 4 ∧
      ((add_tcp_scribe 1 7 "localhost" 8080
        (provide_scribe "localhost" 8080 4 (listening []))).2.scribe_data_ 4).ptr = some 7 :=
  have h0 := (add_tcp_scribe_never_fails 1 7 "localhost" 8080 (listening [])).1
    (AList.not_mem_empty _)
  have h1 := (add_tcp_scribe_never_fails 1 7 "localhost" 8080
    (provide_scribe "localhost" 8080 4 (listening []))).2 4 (by decide)
  ⟨h0.1, h0.2.1, h1.1, h1.2.1⟩

end test_multiplexer

namespace test_multiplexer

variable {β : Type}

/-- With a queue-oblivious behaviour `exec` leaves elements put in front of the queue where
they are. -/
theorem exec_front (env : behaviour β) (hobl : queue_oblivious env) (ptr : resumable_ptr)
    (s : test_multiplexer β) (front : List resumable_ptr) :
    exec env ptr { s with resumables_ := front ++ s.resumables_ }
      = { exec env ptr s with resumables_ := front ++ (exec env ptr s).resumables_ } := by
  simp only [exec, hobl ptr s front]
  cases (env.resume ptr s).1 with
  | resume_later =>
    simp only [exec_later]
    cases env.subtype ptr <;> simp only [List.append_assoc]
  | awaiting_message => rfl
  | done => rfl
  | other_result => rfl

/-- Setting the queue of a state to the queue it has changes nothing. -/
theorem with_own_queue (s : test_multiplexer β) (q : List resumable_ptr)
    (h : s.resumables_ = q) : { s with resumables_ := q } = s := by
  cases s
  simp only [] at h
  subst h
  rfl

/-- The naive loop on a queue `l ++ b` with a queue-oblivious behaviour: after `l.length`
rounds it has resumed the elements of `l` in order, as a burst over `l` does. -/
theorem drain_naive_burst (env : behaviour β) (hobl : queue_oblivious env)
    (l : List resumable_ptr) :
    ∀ (b : List resumable_ptr) (s : test_multiplexer β) (fuel : Nat),
      s.resumables_ = l ++ b →
      drain_naive env (fuel + l.length) s
        = drain_naive env fuel (l.foldl (fun st ptr => exec env ptr st)
            { s with resumables_ := b }) := by
  induction l with
  | nil =>
    intro b s fuel hq
    rw [List.nil_append] at hq
    rw [List.length_nil, Nat.add_zero, List.foldl_nil, with_own_queue s b hq]
  | cons x l ih =>
    intro b s fuel hq
    have hstep : drain_naive env (fuel + (x :: l).length) s
        = drain_naive env (fuel + l.length)
            (exec env x { s with resumables_ := l ++ b }) := by
      rw [List.length_cons, ← Nat.add_assoc, drain_naive]
      simp only [try_exec_runnable, hq, List.cons_append, if_true]
    have hfront := exec_front env hobl x { s with resumables_ := b } l
    simp only [] at hfront
    rw [hstep, hfront, ih (exec env x { s with resumables_ := b }).resumables_ _ fuel rfl]
    simp only [List.foldl_cons, with_own_queue (exec env x { s with resumables_ := b }) _ rfl]

/-- The naive loop needs more rounds than the queue is long. -/
theorem drain_naive_fuel (env : behaviour β) (hobl : queue_oblivious env) :
    ∀ (fuel : Nat) (s s' : test_multiplexer β),
      drain_naive env fuel s = .ok s' → s.resumables_.length < fuel := by
  intro fuel
  induction fuel with
  | zero =>
    intro s s' h
    simp only [drain_naive] at h
    cases h
  | succ fuel ih =>
    intro s s' h
    cases hq : s.resumables_ with
    | nil => exact Nat.succ_pos _
    | cons x rest =>
      rw [drain_naive] at h
      simp only [try_exec_runnable, hq, if_true] at h
      have hfront := exec_front env hobl x { s with resumables_ := [] } rest
      simp only [List.append_nil] at hfront
      rw [hfront] at h
      have := ih _ _ h
      simp only [List.length_append, List.length_cons] at this ⊢
      omega

/-- One round of `flush_runnables` on a non-empty queue. -/
theorem flush_runnables_round (env : behaviour β) (fuel : Nat) (s : test_multiplexer β)
    (hne : s.resumables_ ≠ []) :
    flush_runnables env (fuel + 1) s = flush_runnables env fuel
      ((s.resumables_.take max_runnable_count).foldl (fun st ptr => exec env ptr st)
        { s with resumables_ := s.resumables_.drop max_runnable_count }) := by
  have hb : (s.resumables_.take max_runnable_count).isEmpty = false := by
    cases hq : s.resumables_ with
    | nil => exact absurd hq hne
    | cons x xs => rfl
  rw [flush_runnables]
  simp only [hb, Bool.false_eq_true, if_false]

/-- On an empty queue `flush_runnables` returns at once with the state it was given. -/
theorem flush_runnables_empty (env : behaviour β) (fuel : Nat) (s : test_multiplexer β)
    (he : s.resumables_ = []) : flush_runnables env (fuel + 1) s = .ok s := by
  rw [flush_runnables]
  simp only [he, List.take_nil, List.drop_nil, List.foldl_nil, List.isEmpty_nil, if_true]
  rw [with_own_queue s [] he]

/-- Claim C25: for every behaviour that deals with the queue through `exec_later` only,
`flush_runnables`, which takes bursts of up to 8 elements off the queue before resuming them,
and the naive loop that calls `try_exec_runnable` until it returns `false` end in the same
state, and the one returns exactly when the other does. The state holds the final queue and
whatever the resumes wrote, so with resumes that log themselves it holds the order in which
the resumables ran and were enqueued. -/
theorem flush_runnables_refines_naive (env : behaviour β) (hobl : queue_oblivious env)
    (s s' : test_multiplexer β) :
    (∃ fuel : Nat, flush_runnables env fuel s = .ok s') ↔
      (∃ fuel : Nat, drain_naive env fuel s = .ok s') := by
  constructor
  · rintro ⟨fuel, h⟩
    induction fuel generalizing s with
    | zero =>
      simp only [flush_runnables] at h
      cases h
    | succ fuel ih =>
      by_cases he : s.resumables_ = []
      · rw [flush_runnables_empty env fuel s he] at h
        refine ⟨1, ?_⟩
        rw [drain_naive]
        simp only [try_exec_runnable, he, Bool.false_eq_true, if_false]
        exact h
      · rw [flush_runnables_round env fuel s he] at h
        obtain ⟨k, hk⟩ := ih _ h
        refine ⟨k + (s.resumables_.take max_runnable_count).length, ?_⟩
        rw [drain_naive_burst env hobl _ (s.resumables_.drop max_runnable_count) s k
          (List.take_append_drop _ _).symm]
        exact hk
  · rintro ⟨fuel, h⟩
    induction fuel using Nat.strong_induction_on generalizing s with
    | _ fuel ih =>
      by_cases he : s.resumables_ = []
      · refine ⟨1, ?_⟩
        rw [flush_runnables_empty env 0 s he]
        cases fuel with
        | zero =>
          simp only [drain_naive] at h
          cases h
        | succ k =>
          rw [drain_naive] at h
          simp only [try_exec_runnable, he, Bool.false_eq_true, if_false] at h
          exact h
      · have hlen := drain_naive_fuel env hobl fuel s s' h
        have htake : (s.resumables_.take max_runnable_count).length ≤ s.resumables_.length :=
          List.length_take_le' _ _
        have hpos : 0 < (s.resumables_.take max_runnable_count).length := by
          cases hq : s.resumables_ with
          | nil => exact absurd hq he
          | cons x xs => simp [max_runnable_count]
        obtain ⟨k, hk⟩ : ∃ k : Nat,
            fuel = k + (s.resumables_.take max_runnable_count).length :=
          ⟨fuel - (s.resumables_.take max_runnable_count).length, by omega⟩
        rw [hk, drain_naive_burst env hobl _ (s.resumables_.drop max_runnable_count) s k
          (List.take_append_drop _ _).symm] at h
        obtain ⟨m, hm⟩ := ih k (by omega) _ h
        exact ⟨m + 1, by rw [flush_runnables_round env m s he]; exact hm⟩

/-- The behaviour `spawning spawn` deals with the queue through `exec_later` only. -/
theorem spawning_queue_oblivious (spawn : resumable_ptr → Option resumable_ptr) :
    queue_oblivious (spawning spawn) := by
  intro ptr s front
  cases hsp : spawn ptr with
  | none => simp only [spawning, hsp]
  | some c => simp only [spawning, hsp, exec_later, List.append_assoc]

/-- Claim C25 with ten queued resumables that log themselves and enqueue one further
resumable each: the naive loop ends in the state `flush_runnables` ends in, with the same log
and the same released items in the same order. -/
theorem flush_runnables_refines_naive_witness :
    ∃ fuel : Nat,
      drain_naive (spawning (fun p => if p < 100 then some (p + 100) else none)) fuel
          (queued [0, 1, 2, 3, 4, 5, 6, 7, 8, 9])
        = .ok { queued [] with
            ext := [0, 1, 2, 3, 4, 5, 6, 7, 8, 9,
              100, 101, 102, 103, 104, 105, 106, 107, 108, 109],
            released_ := [0, 1, 2, 3, 4, 5, 6, 7, 8, 9,
              100, 101, 102, 103, 104, 105, 106, 107, 108, 109] } :=
  (flush_runnables_refines_naive (spawning (fun p => if p < 100 then some (p + 100) else none))
    (spawning_queue_oblivious _) (queued [0, 1, 2, 3, 4, 5, 6, 7, 8, 9]) _).mp ⟨4, rfl⟩

end test_multiplexer

namespace test_multiplexer

variable {β : Type}

/-- Claim C24, what the code does instead. The read buffer belongs to the consumer during the
call: at-most-3 policy on seven bytes with a consumer that accepts every chunk, takes it out of
the read buffer and never touches the inbound buffer; the last chunk handed over is `[7]`, but
the read buffer is empty after the call. And the bytes conserved are those buffered when the
chunk delivery starts, not those buffered before the call: at-least-1 policy on three bytes
with one queued resumable that puts a fourth byte on the wire; the call runs the resumable
first and hands over all four bytes, one more than were buffered before the call, with a
consumer that changes nothing. -/
theorem read_data_rd_buf_taken :
    (consumer_keeps_xbuf taker 0 ∧
      ∃ s' : test_multiplexer Unit,
        read_data taker 8 0 (connection receive_policy_flag.at_most 3 [1, 2, 3, 4, 5, 6, 7])
          = .ok (s', [([1, 2, 3], true), ([4, 5, 6], true), ([7], true)]) ∧
        (s'.scribe_data_ 0).xbuf = [] ∧
        (s'.scribe_data_ 0).rd_buf = [] ∧
        (s'.scribe_data_ 0).rd_buf ≠ [7]) ∧
    (consumer_keeps_xbuf feeding 0 ∧
      ({ connection receive_policy_flag.at_least 1 [1, 2, 3] with
          resumables_ := [4] }.scribe_data_ 0).xbuf = [1, 2, 3] ∧
      ∃ s' : test_multiplexer Unit,
        read_data feeding 8 0
            { connection receive_policy_flag.at_least 1 [1, 2, 3] with resumables_ := [4] }
          = .ok (s', [([1, 2, 3, 9], true)]) ∧
        (s'.scribe_data_ 0).xbuf = [] ∧
        [1, 2, 3, 9] ++ (s'.scribe_data_ 0).xbuf ≠ [1, 2, 3]) :=
  ⟨⟨fun _ _ _ => rfl, _, rfl, rfl, rfl, by decide⟩,
    ⟨fun _ _ _ => rfl, rfl, _, rfl, rfl, by decide⟩⟩

/-- Claim C24, amended: byte conservation in `read_data`. For every read policy, every `N` and
every consumer, accepting or rejecting, that leaves the inbound buffer alone, whenever the call
returns: the chunks of its log were handed to the consumer, in that order (whatever record `obs`
the consumers keep of the chunks they are called with grows by exactly these chunks); these
chunks followed by what is left in `xbuf` are exactly the bytes `xbuf` held when the chunk
delivery started, so no byte is dropped, duplicated or reordered; and `rd_buf` holds the last
chunk handed over provided the consumer leaves the read buffer alone as well. The call does
return for `N ≥ 1` (for at-most: below `2^63`) once the fuel exceeds the length of the inbound
buffer, when the consumer also leaves the read policy and the installed implementation alone.
Here `s1` is the state in which the chunk delivery starts (after the queued resumables have
run). -/
theorem read_data_conserves_bytes (env : behaviour β) (fuel : Nat) (hdl : connection_handle)
    (s s1 : test_multiplexer β) (impl : scribe_ptr)
    (hpass : passive_mode s hdl = false)
    (hflush : flush_runnables env fuel s = .ok s1)
    (hptr : (s1.scribe_data_ hdl).ptr = some impl)
    (hkeep : consumer_keeps_xbuf env hdl) :
    (∀ (s' : test_multiplexer β) (log : List (buffer_type × Bool)),
        read_data env fuel hdl s = .ok (s', log) →
        (∀ obs : β → List buffer_type, consumer_records env obs →
            obs s'.ext = obs s1.ext ++ log.map Prod.fst) ∧
          (log.map Prod.fst).flatten ++ (s'.scribe_data_ hdl).xbuf
            = (s1.scribe_data_ hdl).xbuf ∧
          (consumer_keeps_rd_buf env hdl → ∀ e : buffer_type × Bool, log.getLast? = some e →
            (s'.scribe_data_ hdl).rd_buf = e.1)) ∧
      (∀ (pol : receive_policy_flag) (N : Nat), (s1.scribe_data_ hdl).recv_conf = (pol, N) →
        1 ≤ N → (pol = receive_policy_flag.at_most → N < 2 ^ 63) →
        consumer_keeps_input env hdl → (s1.scribe_data_ hdl).xbuf.length < fuel →
        ∃ (s' : test_multiplexer β) (log : List (buffer_type × Bool)),
          read_data env fuel hdl s = .ok (s', log)) := by
  constructor
  · intro s' log h
    obtain ⟨h1, h2, h3⟩ := read_data_returned env fuel hdl s s1 impl hpass hflush hptr s' log h
    refine ⟨h1, h2 hkeep, ?_⟩
    intro hk e he
    rw [h3 hk, he, Option.map_some', Option.getD_some]
  · intro pol N hconf hN hmax hin hfuel
    have hrd := read_data_of_ready env fuel hdl s s1 impl hpass hflush hptr
    have hc1 : (s1.scribe_data_ hdl).recv_conf.1 = pol := by rw [hconf]
    have hc2 : (s1.scribe_data_ hdl).recv_conf.2 = N := by rw [hconf]
    rw [hrd, hc1]
    cases pol with
    | exactly =>
      obtain ⟨s', log, hrun, _⟩ :=
        read_exactly_total env hdl hin N hN impl fuel s1 hptr hc2 hfuel
      exact ⟨s', log, hrun⟩
    | at_least =>
      obtain ⟨h1, h2⟩ := read_at_least_spec env hdl impl s1 hptr
      by_cases hge : (s1.scribe_data_ hdl).recv_conf.2 ≤ (s1.scribe_data_ hdl).xbuf.length
      · obtain ⟨s', hrun, _⟩ := h1 hge
        exact ⟨s', _, hrun⟩
      · exact ⟨s1, [], h2 (Nat.lt_of_not_le hge)⟩
    | at_most =>
      obtain ⟨s', log, hrun, _⟩ :=
        read_at_most_total env hdl hin N hN impl fuel s1 hptr hfuel
      refine ⟨s', log, ?_⟩
      rw [hc2, to_ptrdiff_of_lt N (hmax rfl)]
      exact hrun

/-- Claim C24, amended, at the at-most-3 policy on seven bytes with a consumer that logs what
it receives and rejects every chunk: the log of the consumer holds the chunks handed over, no
byte is lost, and `rd_buf` holds the last chunk. -/
theorem read_data_conserves_bytes_witness :
    ∃ (s' : test_multiplexer (List buffer_type)) (log : List (buffer_type × Bool)),
      read_data (recording false) 8 0
          (recorded receive_policy_flag.at_most 3 [1, 2, 3, 4, 5, 6, 7]) = .ok (s', log) ∧
        s'.ext = log.map Prod.fst ∧
        s'.ext = [[1, 2, 3], [4, 5, 6], [7]] ∧
        (log.map Prod.fst).flatten ++ (s'.scribe_data_ 0).xbuf = [1, 2, 3, 4, 5, 6, 7] ∧
        (s'.scribe_data_ 0).rd_buf = [7] := by
  have h := read_data_conserves_bytes (recording false) 8 0
    (recorded receive_policy_flag.at_most 3 [1, 2, 3, 4, 5, 6, 7])
    (recorded receive_policy_flag.at_most 3 [1, 2, 3, 4, 5, 6, 7]) 0 rfl rfl rfl
    (fun _ _ _ => rfl)
  exact ⟨_, _, rfl, (h.1 _ _ rfl).1 id (fun _ _ _ => rfl), rfl, (h.1 _ _ rfl).2.1,
    (h.1 _ _ rfl).2.2 (fun _ _ _ => rfl) ([7], false) rfl⟩

end test_multiplexer

namespace test_multiplexer

variable {β : Type}

/-- The cast to `ptrdiff_t` of a `size_t` from `2^63` on is negative. -/
theorem to_ptrdiff_neg (N : Nat) (hlo : 2 ^ 63 ≤ N) (hhi : N < 2 ^ 64) : to_ptrdiff N < 0 := by
  have h1 : N % 2 ^ 64 = N := Nat.mod_eq_of_lt hhi
  have h2 : ¬ N < 2 ^ 63 := Nat.not_lt.mpr hlo
  simp only [to_ptrdiff, h1, h2, if_false]
  omega

/-- The loop of the exactly policy makes no progress for `N = 0`: no fuel suffices. -/
theorem read_exactly_zero (env : behaviour β) (hdl : connection_handle)
    (hkeep : consumer_keeps_input env hdl) (impl : scribe_ptr) :
    ∀ (fuel : Nat) (s : test_multiplexer β), (s.scribe_data_ hdl).ptr = some impl →
      (s.scribe_data_ hdl).recv_conf.2 = 0 →
      read_exactly env hdl fuel s = .error fault.out_of_fuel := by
  intro fuel
  induction fuel with
  | zero => intro s _ _; rfl
  | succ fuel ih =>
    intro s hptr hconf
    obtain ⟨s2, hc, _, _, _, _, hin⟩ := hand_over env hdl (fun sd =>
        { sd with rd_buf := sd.xbuf.take sd.recv_conf.2, xbuf := sd.xbuf.drop sd.recv_conf.2 })
        s impl hptr
    obtain ⟨_, hcf2, hp2⟩ := hin hkeep
    simp only [] at hcf2
    have hrec := ih s2 hp2 (by rw [hcf2]; exact hconf)
    rw [read_exactly]
    simp only [hconf, ge_iff_le, Nat.zero_le, if_true]
    simp only [hconf] at hc
    simp only [hc, hrec]

/-- The loop of the at-most policy makes no progress for `max_bytes = 0` on a non-empty
buffer: no fuel suffices. -/
theorem read_at_most_zero (env : behaviour β) (hdl : connection_handle)
    (hkeep : consumer_keeps_input env hdl) (impl : scribe_ptr) :
    ∀ (fuel : Nat) (s : test_multiplexer β), (s.scribe_data_ hdl).ptr = some impl →
      (s.scribe_data_ hdl).xbuf ≠ [] →
      read_at_most env hdl 0 fuel s = .error fault.out_of_fuel := by
  intro fuel
  induction fuel with
  | zero => intro s _ _; rfl
  | succ fuel ih =>
    intro s hptr hne
    have hpos : (0 : Int) < ((s.scribe_data_ hdl).xbuf.length : Int) := by
      have := List.length_pos.mpr hne
      omega
    obtain ⟨s2, hc, _, _, _, _, hin⟩ := hand_over env hdl (fun sd =>
        { sd with
          rd_buf := sd.xbuf.take (if (0 : Int) < ((s.scribe_data_ hdl).xbuf.length : Int)
            then (0 : Int).toNat else (s.scribe_data_ hdl).xbuf.length),
          xbuf := sd.xbuf.drop (if (0 : Int) < ((s.scribe_data_ hdl).xbuf.length : Int)
            then (0 : Int).toNat else (s.scribe_data_ hdl).xbuf.length) }) s impl hptr
    obtain ⟨hx2, _, hp2⟩ := hin hkeep
    simp only [hpos, if_true, Int.toNat_zero, List.drop_zero] at hx2
    have hrec := ih s2 hp2 (by rw [hx2]; exact hne)
    have hnn : ¬ ((0 : Int) < ((s.scribe_data_ hdl).xbuf.length : Int) ∧ (0 : Int) < 0) :=
      fun h => absurd h.2 (by omega)
    rw [read_at_most]
    simp only [hne, ne_eq, not_false_eq_true, if_true, hnn, if_false]
    simp only [hc, hrec]

/-- Claim C26 fails on the code for the at-most policy from `N = 2^63` on. Three bytes
buffered, a consumer that rejects every chunk: with `N = 2^63 - 1` the loop ends after its one
chunk; with `N = 2^63` and with `N = 2^64 - 1`, both at least 1, the cast of `N` to `ptrdiff_t`
is negative and the first round of the loop forms the end of the chunk before the begin of the
buffer, which is undefined: the call does not end having handed over its one chunk. -/
theorem read_data_at_most_band_undefined :
    (∃ s' : test_multiplexer Unit,
      read_data rejecting 8 0 (connection receive_policy_flag.at_most (2 ^ 63 - 1) [1, 2, 3])
        = .ok (s', [([1, 2, 3], false)])) ∧
      read_data rejecting 8 0 (connection receive_policy_flag.at_most (2 ^ 63) [1, 2, 3])
        = .error fault.undefined ∧
      read_data rejecting 8 0 (connection receive_policy_flag.at_most (2 ^ 64 - 1) [1, 2, 3])
        = .error fault.undefined :=
  ⟨⟨_, rfl⟩, rfl, rfl⟩

/-- The part of claim C26 the code keeps. For a consumer that leaves alone what the loops read
(inbound buffer, read policy, implementation) and may change everything else, for every answer
it gives and each policy: when `N ≥ 1` (for at-most: below `2^63`) and the fuel exceeds the
length `L` of the inbound buffer the call returns having handed over at most `L / N` chunks
(exactly), `⌈L / N⌉` chunks (at-most) or one chunk (at-least), and for every `size_t` value
`N ≥ 1` the loops never use up that fuel. For `N = 0` the loops make no progress: the exactly
loop on any buffer and the at-most loop on a non-empty buffer use up every fuel. Here `s1` is
the state in which the chunk delivery starts (after the queued resumables have run). -/
theorem read_data_loop_terminates (env : behaviour β) (fuel : Nat) (hdl : connection_handle)
    (s s1 : test_multiplexer β) (impl : scribe_ptr) (pol : receive_policy_flag) (N : Nat)
    (hpass : passive_mode s hdl = false)
    (hflush : flush_runnables env fuel s = .ok s1)
    (hptr : (s1.scribe_data_ hdl).ptr = some impl)
    (hconf : (s1.scribe_data_ hdl).recv_conf = (pol, N))
    (hkeep : consumer_keeps_input env hdl) :
    (1 ≤ N → (pol = receive_policy_flag.at_most → N < 2 ^ 63) →
        (s1.scribe_data_ hdl).xbuf.length < fuel →
        ∃ (s' : test_multiplexer β) (log : List (buffer_type × Bool)),
          read_data env fuel hdl s = .ok (s', log) ∧
          (pol = receive_policy_flag.exactly →
            log.length ≤ (s1.scribe_data_ hdl).xbuf.length / N) ∧
          (pol = receive_policy_flag.at_most →
            log.length ≤ ((s1.scribe_data_ hdl).xbuf.length + N - 1) / N) ∧
          (pol = receive_policy_flag.at_least → log.length ≤ 1)) ∧
      (1 ≤ N → N < 2 ^ 64 → (s1.scribe_data_ hdl).xbuf.length < fuel →
        read_data env fuel hdl s ≠ .error fault.out_of_fuel) ∧
      (N = 0 → pol = receive_policy_flag.exactly →
        read_data env fuel hdl s = .error fault.out_of_fuel) ∧
      (N = 0 → pol = receive_policy_flag.at_most → (s1.scribe_data_ hdl).xbuf ≠ [] →
        read_data env fuel hdl s = .error fault.out_of_fuel) := by
  have hrd := read_data_of_ready env fuel hdl s s1 impl hpass hflush hptr
  have hc1 : (s1.scribe_data_ hdl).recv_conf.1 = pol := by rw [hconf]
  have hc2 : (s1.scribe_data_ hdl).recv_conf.2 = N := by rw [hconf]
  rw [hrd, hc1, hc2]
  have hin : 1 ≤ N → (pol = receive_policy_flag.at_most → N < 2 ^ 63) →
      (s1.scribe_data_ hdl).xbuf.length < fuel →
      ∃ (s' : test_multiplexer β) (log : List (buffer_type × Bool)),
        (match pol with
          | .exactly => read_exactly env hdl fuel s1
          | .at_least => read_at_least env hdl s1
          | .at_most => read_at_most env hdl (to_ptrdiff N) fuel s1) = .ok (s', log) ∧
        (pol = receive_policy_flag.exactly →
          log.length ≤ (s1.scribe_data_ hdl).xbuf.length / N) ∧
        (pol = receive_policy_flag.at_most →
          log.length ≤ ((s1.scribe_data_ hdl).xbuf.length + N - 1) / N) ∧
        (pol = receive_policy_flag.at_least → log.length ≤ 1) := by
    intro hN hmax hfuel
    cases pol with
    | exactly =>
      obtain ⟨s', log, hrun, hcount, _⟩ :=
        read_exactly_total env hdl hkeep N hN impl fuel s1 hptr hc2 hfuel
      exact ⟨s', log, hrun, fun _ => Nat.le_of_eq hcount,
        fun h => receive_policy_flag.noConfusion h, fun h => receive_policy_flag.noConfusion h⟩
    | at_least =>
      obtain ⟨h1, h2⟩ := read_at_least_spec env hdl impl s1 hptr
      by_cases hge : (s1.scribe_data_ hdl).recv_conf.2 ≤ (s1.scribe_data_ hdl).xbuf.length
      · obtain ⟨s', hrun, _⟩ := h1 hge
        exact ⟨s', _, hrun, fun h => receive_policy_flag.noConfusion h,
          fun h => receive_policy_flag.noConfusion h, fun _ => Nat.le_refl 1⟩
      · exact ⟨s1, [], h2 (Nat.lt_of_not_le hge), fun h => receive_policy_flag.noConfusion h,
          fun h => receive_policy_flag.noConfusion h, fun _ => Nat.zero_le 1⟩
    | at_most =>
      obtain ⟨s', log, hrun, _, _, hcount, _⟩ :=
        read_at_most_total env hdl hkeep N hN impl fuel s1 hptr hfuel
      refine ⟨s', log, ?_, fun h => receive_policy_flag.noConfusion h,
        fun _ => Nat.le_of_eq hcount, fun h => receive_policy_flag.noConfusion h⟩
      rw [to_ptrdiff_of_lt N (hmax rfl)]
      exact hrun
  refine ⟨hin, ?_, ?_, ?_⟩
  · intro hN hsz hfuel
    by_cases hrange : pol = receive_policy_flag.at_most → N < 2 ^ 63
    · obtain ⟨s', log, hrun, _⟩ := hin hN hrange hfuel
      rw [hrun]
      intro h
      cases h
    · have hpol : pol = receive_policy_flag.at_most := by
        by_contra hc
        exact hrange (fun h => absurd h hc)
      have hbig : 2 ^ 63 ≤ N := by
        by_contra hc
        exact hrange (fun _ => Nat.lt_of_not_le hc)
      have hneg := to_ptrdiff_neg N hbig hsz
      subst hpol
      obtain ⟨k, hk⟩ : ∃ k : Nat, fuel = k + 1 := ⟨fuel - 1, by omega⟩
      subst hk
      simp only []
      rw [read_at_most]
      by_cases hne : (s1.scribe_data_ hdl).xbuf ≠ []
      · have hlt : to_ptrdiff N < ((s1.scribe_data_ hdl).xbuf.length : Int) := by omega
        simp only [hne, ne_eq, not_false_eq_true, if_true, hlt, hneg, and_self]
        intro h
        cases h
      · simp only [hne, if_false]
        intro h
        cases h
  · intro hN hpol
    subst hN hpol
    exact read_exactly_zero env hdl hkeep impl fuel s1 hptr hc2
  · intro hN hpol hne
    subst hN hpol
    simp only []
    rw [to_ptrdiff_of_lt 0 (by decide)]
    exact read_at_most_zero env hdl hkeep impl fuel s1 hptr hne

/-- The loops at seven bytes with a consumer that logs every chunk and writes it back into the
write buffer: with exactly-3 the call returns after two chunks, with exactly-0 it uses up its
fuel. -/
theorem read_data_loop_terminates_witness :
    consumer_keeps_input echo 0 ∧
      (∃ (s' : test_multiplexer (List buffer_type)) (log : List (buffer_type × Bool)),
        read_data echo 8 0 (recorded receive_policy_flag.exactly 3 [1, 2, 3, 4, 5, 6, 7])
            = .ok (s', log) ∧
          log.length ≤ 2) ∧
      read_data echo 8 0 (recorded receive_policy_flag.exactly 0 [1, 2, 3, 4, 5, 6, 7])
        = .error fault.out_of_fuel := by
  refine ⟨fun _ _ _ => ⟨rfl, rfl, rfl⟩, ?_, ?_⟩
  · obtain ⟨s', log, h1, h2, _⟩ := (read_data_loop_terminates echo 8 0
      (recorded receive_policy_flag.exactly 3 [1, 2, 3, 4, 5, 6, 7])
      (recorded receive_policy_flag.exactly 3 [1, 2, 3, 4, 5, 6, 7]) 0
      receive_policy_flag.exactly 3 rfl rfl rfl rfl (fun _ _ _ => ⟨rfl, rfl, rfl⟩)).1
      (by decide) (fun h => by cases h) (by decide)
    exact ⟨s', log, h1, h2 rfl⟩
  · exact (read_data_loop_terminates echo 8 0
      (recorded receive_policy_flag.exactly 0 [1, 2, 3, 4, 5, 6, 7])
      (recorded receive_policy_flag.exactly 0 [1, 2, 3, 4, 5, 6, 7]) 0
      receive_policy_flag.exactly 0 rfl rfl rfl rfl (fun _ _ _ => ⟨rfl, rfl, rfl⟩)).2.2.1 rfl rfl

end test_multiplexer

end caf
